import Mathlib

set_option maxRecDepth 8000

/- Shallow embedding of the bingo relay servers in this repository.

   Two server variants are modelled:

   * `Bingo`: the Node/Express `BingoServer` class (WebSocket handlers
     `handleCreateRoom`, `handleJoinRoom`, `handleLeaveRoom`, `handleStartGame`,
     `handleStopGame`, `handleNumberCall`, `handleChat`, `handleDisconnect`,
     plus the HTTP route `POST /room/join`).
   * `ServerTs`: the minimal Deno relay in `backend/server.ts`
     (`handleJoinRoom`, `handleCallNumber` and the `socket.onclose` handler).

   Connections are identified by `Nat` ids (uuid strings in the source; only
   equality and freshness of ids matter).  A JS `Map` keyed by id is modelled
   as an insertion-ordered list: `Map.set` keeps the position of an existing
   key and appends a new one, `Map.delete` filters, and iteration order is the
   list order, so `map.values().next().value` is the head of the list.  A room
   holds non-owning references to the shared player objects, so the player
   registry is the single source of truth for player fields and rooms store
   member ids.  WebSocket sends are collected as `(recipient id, message)`
   pairs in emission order; the `ws.readyState === WebSocket.OPEN` guard of
   the broadcast helpers is the `wsOpen` field of a player.  Timestamp fields
   of outbound messages are omitted (wall-clock values), as are player fields
   (`stake`, `board`, `payment`) that no modelled handler reads or sends. -/

namespace Bingo

structure Player where
  id : Nat
  name : String
  phone : String
  roomId : Option Nat
  isHost : Bool
  connected : Bool
  wsOpen : Bool
deriving DecidableEq

structure Room where
  id : Nat
  name : String
  hostId : Nat
  players : List Nat
  gameType : String
  gameActive : Bool
  calledNumbers : List Int
  maxPlayers : Nat
deriving DecidableEq

structure ServerState where
  players : List Player
  rooms : List Room
deriving DecidableEq

/-- Outbound server messages of the `BingoServer` variant (the `type` tag and
payload fields of each `ws.send`/broadcast in the source, minus timestamps). -/
inductive OutMsg where
  | welcome (playerId : Nat)
  | errorMsg (text : String)
  | roomCreated (roomId : Nat) (roomName gameType : String) (maxPlayers : Nat)
  | roomJoined (roomId : Nat) (roomName gameType : String) (hostId playerCount : Nat)
      (calledNumbers : List Int) (gameActive : Bool)
  | playerJoinedRoom (pid : Nat) (pname pphone : String) (playerCount : Nat)
  | playerJoined (pid : Nat) (pname pphone : String) (count : Nat)
  | playerLeftRoom (pid playerCount : Nat)
  | newHost (hostId : Nat) (hostName : String)
  | numberCalled (number : Int) (display caller : String)
  | gameStarted (host gameType : String)
  | gameStopped (host : String) (totalNumbersCalled : Nat)
  | chatMessage (sender text : String)
  | globalChat (sender text : String)
deriving DecidableEq

/-- A batch of directed sends: `(recipient connection id, message)`. -/
abbrev Sends := List (Nat × OutMsg)

def findPlayer (s : ServerState) (pid : Nat) : Option Player :=
  s.players.find? (fun p => p.id == pid)

def findRoom (s : ServerState) (rid : Nat) : Option Room :=
  s.rooms.find? (fun r => r.id == rid)

def updatePlayer (s : ServerState) (pid : Nat) (f : Player → Player) : ServerState :=
  { s with players := s.players.map (fun p => if p.id == pid then f p else p) }

def updateRoom (s : ServerState) (rid : Nat) (f : Room → Room) : ServerState :=
  { s with rooms := s.rooms.map (fun r => if r.id == rid then f r else r) }

def removeRoom (s : ServerState) (rid : Nat) : ServerState :=
  { s with rooms := s.rooms.filter (fun r => r.id != rid) }

/-- `rooms.set(rid, room)`: replace an existing entry in place, else append. -/
def setRoomEntry (s : ServerState) (rid : Nat) (room : Room) : ServerState :=
  if s.rooms.any (fun r => r.id == rid) then updateRoom s rid (fun _ => room)
  else { s with rooms := s.rooms ++ [room] }

/-- `players.set(pid, pl)`: replace an existing entry in place, else append. -/
def setPlayerEntry (s : ServerState) (pid : Nat) (pl : Player) : ServerState :=
  if s.players.any (fun p => p.id == pid) then updatePlayer s pid (fun _ => pl)
  else { s with players := s.players ++ [pl] }

/-- `map.set(x, ...)` on a member-id map: keep position if present, else append. -/
def mapInsert (l : List Nat) (x : Nat) : List Nat :=
  if x ∈ l then l else l ++ [x]

def wsOpenOf (s : ServerState) (q : Nat) : Bool :=
  (findPlayer s q).elim false Player.wsOpen

def nameOf (s : ServerState) (q : Nat) : String :=
  (findPlayer s q).elim "" Player.name

/-- `broadcastToRoom`: send to every member of the room whose socket is open,
optionally excluding one player id. -/
def broadcastToRoom (s : ServerState) (rid : Nat) (msg : OutMsg)
    (exclude : Option Nat) : Sends :=
  match findRoom s rid with
  | none => []
  | some room =>
      (room.players.filter (fun q => exclude != some q && wsOpenOf s q)).map
        (fun q => (q, msg))

/-- `broadcastToAll`: send to every connected player with an open socket,
optionally excluding one player id. -/
def broadcastToAll (s : ServerState) (msg : OutMsg) (exclude : Option Nat) : Sends :=
  (s.players.filter (fun p => exclude != some p.id && p.connected && p.wsOpen)).map
    (fun p => (p.id, msg))

/-- The `wss.on('connection')` callback: register a fresh player record and
send the welcome message. -/
def connectPlayer (s : ServerState) (pid : Nat) : ServerState × Sends :=
  (setPlayerEntry s pid
      { id := pid, name := "", phone := "", roomId := none, isHost := false,
        connected := true, wsOpen := true },
   [(pid, OutMsg.welcome pid)])

/-- `handleCreateRoom`: the fresh uuid is passed in as `freshId`.  The creator
becomes host and sole member; the creator is not removed from any room it was
already in. -/
def handleCreateRoom (s : ServerState) (pid : Nat) (roomName gameType : String)
    (maxPlayers : Nat) (freshId : Nat) : ServerState × Sends :=
  match findPlayer s pid with
  | none => (s, [])
  | some _ =>
    if roomName = "" ∨ gameType = "" then
      (s, [(pid, OutMsg.errorMsg "Room name and game type required")])
    else
      let room : Room :=
        { id := freshId, name := roomName, hostId := pid, players := [pid],
          gameType := gameType, gameActive := false, calledNumbers := [],
          maxPlayers := maxPlayers }
      let s1 := updatePlayer s pid
        (fun p => { p with roomId := some freshId, isHost := true })
      (setRoomEntry s1 freshId room,
       [(pid, OutMsg.roomCreated freshId roomName gameType maxPlayers)])

/-- `handleLeaveRoom`: remove the player from the room named in the message,
clear its `roomId`/`isHost`, delete the room if it became empty (no events),
otherwise hand the host role to the first remaining member when the host left
(broadcasting `newHost`) and broadcast `playerLeftRoom`. -/
def handleLeaveRoom (s : ServerState) (pid rid : Nat) : ServerState × Sends :=
  match findRoom s rid with
  | none => (s, [])
  | some room =>
    let remaining := room.players.filter (fun q => q != pid)
    let s1 := updatePlayer s pid (fun p => { p with roomId := none, isHost := false })
    match remaining with
    | [] => (removeRoom s1 rid, [])
    | h :: _ =>
      if room.hostId == pid then
        let s2 := updateRoom s1 rid (fun r => { r with players := remaining, hostId := h })
        let s3 := updatePlayer s2 h (fun p => { p with isHost := true })
        (s3,
          broadcastToRoom s3 rid (OutMsg.newHost h (nameOf s3 h)) none ++
          broadcastToRoom s3 rid (OutMsg.playerLeftRoom pid remaining.length) none)
      else
        let s2 := updateRoom s1 rid (fun r => { r with players := remaining })
        (s2, broadcastToRoom s2 rid (OutMsg.playerLeftRoom pid remaining.length) none)

/-- `handleJoinRoom`: reply with an error if the room is absent or full;
otherwise implicitly leave the current room when it differs from the target,
add the player (its `isHost` flag is cleared), reply `roomJoined`, and
broadcast `playerJoinedRoom` to the other members. -/
def handleJoinRoom (s : ServerState) (pid rid : Nat) : ServerState × Sends :=
  match findPlayer s pid with
  | none => (s, [])
  | some player =>
    match findRoom s rid with
    | none => (s, [(pid, OutMsg.errorMsg "Room not found")])
    | some room =>
      if room.players.length ≥ room.maxPlayers then
        (s, [(pid, OutMsg.errorMsg "Room is full")])
      else
        let prior :=
          match player.roomId with
          | some old => if old != rid then handleLeaveRoom s pid old else (s, [])
          | none => (s, [])
        let s2 := updateRoom prior.1 rid (fun r => { r with players := mapInsert r.players pid })
        let s3 := updatePlayer s2 pid (fun p => { p with roomId := some rid, isHost := false })
        let newCount := (mapInsert room.players pid).length
        (s3,
          prior.2 ++
          [(pid, OutMsg.roomJoined rid room.name room.gameType room.hostId newCount
              room.calledNumbers room.gameActive)] ++
          broadcastToRoom s3 rid
            (OutMsg.playerJoinedRoom pid player.name player.phone newCount) (some pid))

/-- `handleStartGame`: silently dropped when the caller has no current room or
the room is gone; error reply for a caller whose `isHost` flag is false;
otherwise set `gameActive`, reset `calledNumbers` and broadcast `gameStarted`. -/
def handleStartGame (s : ServerState) (pid : Nat) : ServerState × Sends :=
  match findPlayer s pid with
  | none => (s, [])
  | some player =>
    match player.roomId with
    | none => (s, [])
    | some rid =>
      match findRoom s rid with
      | none => (s, [])
      | some room =>
        if player.isHost = false then
          (s, [(pid, OutMsg.errorMsg "Only host can start the game")])
        else
          let s1 := updateRoom s rid
            (fun r => { r with gameActive := true, calledNumbers := [] })
          (s1, broadcastToRoom s1 rid (OutMsg.gameStarted player.name room.gameType) none)

/-- `handleStopGame`: like `handleStartGame` but clears `gameActive`, keeps
`calledNumbers`, and broadcasts `gameStopped` with the call count. -/
def handleStopGame (s : ServerState) (pid : Nat) : ServerState × Sends :=
  match findPlayer s pid with
  | none => (s, [])
  | some player =>
    match player.roomId with
    | none => (s, [])
    | some rid =>
      match findRoom s rid with
      | none => (s, [])
      | some room =>
        if player.isHost = false then
          (s, [(pid, OutMsg.errorMsg "Only host can stop the game")])
        else
          let s1 := updateRoom s rid (fun r => { r with gameActive := false })
          (s1, broadcastToRoom s1 rid
            (OutMsg.gameStopped player.name room.calledNumbers.length) none)

/-- `handleNumberCall`: silently dropped without a current room; error reply
for a caller whose `isHost` flag is false; otherwise append the number unless
it was already called (no reply in that case) and broadcast `numberCalled` to
the other members. -/
def handleNumberCall (s : ServerState) (pid : Nat) (number : Int) (display : String) :
    ServerState × Sends :=
  match findPlayer s pid with
  | none => (s, [])
  | some player =>
    match player.roomId with
    | none => (s, [])
    | some rid =>
      match findRoom s rid with
      | none => (s, [])
      | some _room =>
        if player.isHost = false then
          (s, [(pid, OutMsg.errorMsg "Only host can call numbers")])
        else
          let s1 := updateRoom s rid (fun r =>
            if number ∈ r.calledNumbers then r
            else { r with calledNumbers := r.calledNumbers ++ [number] })
          (s1, broadcastToRoom s1 rid
            (OutMsg.numberCalled number display player.name) (some pid))

/-- `handleChat`: drop empty text; with a `roomId` broadcast `chatMessage` to
the members of that room except the sender (the sender's own membership is
never checked); without one broadcast `globalChat` to everyone else. -/
def handleChat (s : ServerState) (pid : Nat) (text : String) (chatRoomId : Option Nat) :
    ServerState × Sends :=
  match findPlayer s pid with
  | none => (s, [])
  | some player =>
    if text = "" then (s, [])
    else
      match chatRoomId with
      | some rid => (s, broadcastToRoom s rid (OutMsg.chatMessage player.name text) (some pid))
      | none => (s, broadcastToAll s (OutMsg.globalChat player.name text) (some pid))

/-- The `ws.on('close')` handler: mark the player disconnected (its socket is
no longer open) and run the leave logic for its current room, if any.  The
delayed 30-second reaping of the registry record is not part of this step. -/
def handleDisconnect (s : ServerState) (pid : Nat) : ServerState × Sends :=
  match findPlayer s pid with
  | none => (s, [])
  | some player =>
    let s1 := updatePlayer s pid (fun p => { p with connected := false, wsOpen := false })
    match player.roomId with
    | some rid => handleLeaveRoom s1 pid rid
    | none => (s1, [])

/-- The HTTP route `POST /room/join`: add the player to the room and set its
`roomId`, broadcasting `playerJoined` to the other members.  The player is not
removed from any previous room and its `isHost` flag is left untouched.  The
HTTP responses themselves are not WebSocket sends and are not collected. -/
def httpJoinRoom (s : ServerState) (pid rid : Nat) : ServerState × Sends :=
  match findPlayer s pid, findRoom s rid with
  | some player, some room =>
    if room.players.length ≥ room.maxPlayers then (s, [])
    else
      let s1 := updateRoom s rid (fun r => { r with players := mapInsert r.players pid })
      let s2 := updatePlayer s1 pid (fun p => { p with roomId := some rid })
      (s2, broadcastToRoom s2 rid
        (OutMsg.playerJoined pid player.name player.phone
          (mapInsert room.players pid).length) (some pid))
  | _, _ => (s, [])

/-- The server state after a host with id `pid` leaves room `rid` with
remaining members `h :: t` (the reduced form of the host-handoff branch of
`handleLeaveRoom`). -/
def leaveHostState (s : ServerState) (pid rid h : Nat) (t : List Nat) : ServerState :=
  updatePlayer
    (updateRoom
      (updatePlayer s pid (fun p => { p with roomId := none, isHost := false }))
      rid (fun r => { r with players := h :: t, hostId := h }))
    h (fun p => { p with isHost := true })

/-- The `isHost` flag of the registered player with id `q` (false if absent). -/
def isHostOf (s : ServerState) (q : Nat) : Bool :=
  (findPlayer s q).elim false Player.isHost

/-- The host invariant of the specification: every nonempty room has exactly
one member whose `isHost` flag is set, and that member is the room's `hostId`. -/
def HostOk (s : ServerState) : Prop :=
  ∀ r ∈ s.rooms, r.players ≠ [] → r.players.filter (fun q => isHostOf s q) = [r.hostId]

/-- Well-formedness of a server state: ids are unique, room membership lists
are duplicate-free and registered, a player's `roomId` matches the unique room
containing it, a nonempty room's `hostId` is one of its members, and the
`isHost` flag is set exactly for the host of the player's own room. -/
def WF (s : ServerState) : Prop :=
  (s.players.map Player.id).Nodup ∧
  (s.rooms.map Room.id).Nodup ∧
  (∀ r ∈ s.rooms, r.players.Nodup) ∧
  (∀ r ∈ s.rooms, ∀ q ∈ r.players, ∃ p ∈ s.players, p.id = q) ∧
  (∀ r ∈ s.rooms, ∀ q ∈ r.players, ∀ p ∈ s.players, p.id = q → p.roomId = some r.id) ∧
  (∀ p ∈ s.players, ∀ rid, p.roomId = some rid →
    ∃ r ∈ s.rooms, r.id = rid ∧ p.id ∈ r.players) ∧
  (∀ r ∈ s.rooms, r.players ≠ [] → r.hostId ∈ r.players) ∧
  (∀ p ∈ s.players, p.isHost = true → ∃ r ∈ s.rooms, p.roomId = some r.id ∧ r.hostId = p.id) ∧
  (∀ r ∈ s.rooms, ∀ p ∈ s.players, p.roomId = some r.id → r.hostId = p.id → p.isHost = true) ∧
  (∀ r ∈ s.rooms, r.players ≠ [])

instance (s : ServerState) : Decidable (HostOk s) := by
  unfold HostOk
  infer_instance

instance (s : ServerState) : Decidable (WF s) := by
  unfold WF
  infer_instance

end Bingo

namespace ServerTs

structure Player where
  id : Nat
  roomId : Option Nat
  name : String
  isHost : Bool
  wsOpen : Bool
deriving DecidableEq

structure Room where
  id : Nat
  hostId : Nat
  players : List Nat
  calledNumbers : List Int
  gameActive : Bool
deriving DecidableEq

structure State where
  players : List Player
  rooms : List Room
deriving DecidableEq

/-- Outbound messages of the `backend/server.ts` variant.  Note that this
variant has no error message and no host-change message at all. -/
inductive Out where
  | welcome (pid : Nat)
  | roomUpdate (roomId : Nat) (members : List (Nat × String × Bool))
  | callNumber (number : Int) (calledNumbers : List Int)
  | playerLeft (pid : Nat)
deriving DecidableEq

abbrev Sends := List (Nat × Out)

def findPlayer (s : State) (pid : Nat) : Option Player :=
  s.players.find? (fun p => p.id == pid)

def findRoom (s : State) (rid : Nat) : Option Room :=
  s.rooms.find? (fun r => r.id == rid)

def updatePlayer (s : State) (pid : Nat) (f : Player → Player) : State :=
  { s with players := s.players.map (fun p => if p.id == pid then f p else p) }

def updateRoom (s : State) (rid : Nat) (f : Room → Room) : State :=
  { s with rooms := s.rooms.map (fun r => if r.id == rid then f r else r) }

def mapInsert (l : List Nat) (x : Nat) : List Nat :=
  if x ∈ l then l else l ++ [x]

def wsOpenOf (s : State) (q : Nat) : Bool :=
  (findPlayer s q).elim false Player.wsOpen

def nameOf (s : State) (q : Nat) : String :=
  (findPlayer s q).elim "" Player.name

def isHostOf (s : State) (q : Nat) : Bool :=
  (findPlayer s q).elim false Player.isHost

/-- `broadcastRoom`: send to every member with an open socket (no exclusion in
this variant, the sender included). -/
def broadcastRoom (s : State) (memberIds : List Nat) (m : Out) : Sends :=
  (memberIds.filter (fun q => wsOpenOf s q)).map (fun q => (q, m))

/-- The `serve` upgrade callback: register a fresh player (uuid modelled as a
fresh `Nat`) and send the welcome message from `socket.onopen`. -/
def connect (s : State) (pid : Nat) : State × Sends :=
  ({ s with players := s.players ++
      [{ id := pid, roomId := none, name := "Player_" ++ toString pid,
         isHost := false, wsOpen := true }] },
   [(pid, Out.welcome pid)])

/-- `handleJoinRoom` for `JOIN_ROOM`: join the named room if it exists,
otherwise create a fresh one (the caller becomes its host); then broadcast
`ROOM_UPDATE` with the member list.  There is no `NotFound` outcome. -/
def handleJoinRoom (s : State) (pid : Nat) (roomId : Option Nat) (freshId : Nat) :
    State × Sends :=
  match roomId with
  | some rid =>
    match findRoom s rid with
    | some _ =>
      let s1 := updatePlayer s pid (fun p => { p with roomId := some rid })
      let s2 := updateRoom s1 rid (fun r => { r with players := mapInsert r.players pid })
      match findRoom s2 rid with
      | some room2 =>
        (s2, broadcastRoom s2 room2.players
          (Out.roomUpdate rid (room2.players.map (fun q => (q, nameOf s2 q, isHostOf s2 q)))))
      | none => (s2, [])
    | none => handleJoinRoomFresh s pid freshId
  | none => handleJoinRoomFresh s pid freshId
where
  /-- The room-creation branch of `handleJoinRoom`. -/
  handleJoinRoomFresh (s : State) (pid freshId : Nat) : State × Sends :=
    let room : Room :=
      { id := freshId, hostId := pid, players := [], calledNumbers := [],
        gameActive := false }
    let s1 : State := { s with rooms := s.rooms ++ [room] }
    let s2 := updatePlayer s1 pid (fun p => { p with isHost := true, roomId := some freshId })
    let s3 := updateRoom s2 freshId (fun r => { r with players := mapInsert r.players pid })
    match findRoom s3 freshId with
    | some room3 =>
      (s3, broadcastRoom s3 room3.players
        (Out.roomUpdate freshId (room3.players.map (fun q => (q, nameOf s3 q, isHostOf s3 q)))))
    | none => (s3, [])

/-- `handleCallNumber` for `CALL_NUMBER`: no host check and no duplicate
check; the number is appended unconditionally and broadcast with the full
`calledNumbers` list to every member, the caller included. -/
def handleCallNumber (s : State) (pid : Nat) (number : Int) : State × Sends :=
  match findPlayer s pid with
  | none => (s, [])
  | some player =>
    match player.roomId with
    | none => (s, [])
    | some rid =>
      match findRoom s rid with
      | none => (s, [])
      | some room =>
        let s1 := updateRoom s rid
          (fun r => { r with calledNumbers := r.calledNumbers ++ [number] })
        (s1, broadcastRoom s1 room.players
          (Out.callNumber number (room.calledNumbers ++ [number])))

/-- The `socket.onclose` handler: delete the player from the registry, remove
it from its room and broadcast `PLAYER_LEFT`.  The room is never deleted (even
when it became empty) and `hostId` is never reassigned. -/
def onclose (s : State) (pid : Nat) : State × Sends :=
  match findPlayer s pid with
  | none => (s, [])
  | some player =>
    let s1 : State := { s with players := s.players.filter (fun p => p.id != pid) }
    match player.roomId with
    | none => (s1, [])
    | some rid =>
      match findRoom s1 rid with
      | none => (s1, [])
      | some _ =>
        let s2 := updateRoom s1 rid (fun r => { r with players := r.players.filter (fun q => q != pid) })
        match findRoom s2 rid with
        | some room2 => (s2, broadcastRoom s2 room2.players (Out.playerLeft pid))
        | none => (s2, [])

end ServerTs

/- Concrete scenario states, built by running the modelled handlers from the
empty state, used below to evaluate the handlers on explicit inputs. -/

namespace Bingo

/-- The empty server state at process start. -/
def state0 : ServerState := { players := [], rooms := [] }

/-- Connections 0 and 1 have been accepted. -/
def stateConnected : ServerState := (connectPlayer (connectPlayer state0 0).1 1).1

/-- Player 0 has created room 0 and hosts it. -/
def stateRoom : ServerState := (handleCreateRoom stateConnected 0 "r0" "75ball" 100 0).1

/-- Player 1 has joined room 0 as a plain member. -/
def stateJoined : ServerState := (handleJoinRoom stateRoom 1 0).1

/-- Player 1, while a member of room 0, has created room 1: both members of
room 0 now carry `isHost = true`. -/
def stateTwoHosts : ServerState := (handleCreateRoom stateJoined 1 "r1" "75ball" 100 1).1

/-- The host of room 0 has called number 5. -/
def stateCalled5 : ServerState := (handleNumberCall stateJoined 0 5 "B5").1

/-- Player 1 hosts its own room 1 while player 0 hosts room 0. -/
def stateTwoRooms : ServerState := (handleCreateRoom stateRoom 1 "r1" "75ball" 100 1).1

/-- A third connection 2 is registered but belongs to no room. -/
def stateThree : ServerState := (connectPlayer stateJoined 2).1

/-- True exactly for `error` messages. -/
def isError : OutMsg → Bool
  | OutMsg.errorMsg _ => true
  | _ => false

end Bingo

namespace ServerTs

/-- The empty state of the Deno relay. -/
def state0 : State := { players := [], rooms := [] }

/-- Connections 0, 1 and 2 have been accepted. -/
def stateThree : State := (connect (connect (connect state0 0).1 1).1 2).1

/-- Player 0 has created room 0 via `JOIN_ROOM` with no room id. -/
def stateRoom : State := (handleJoinRoom stateThree 0 none 0).1

/-- Player 1 has joined room 0. -/
def stateTwo : State := (handleJoinRoom stateRoom 1 (some 0) 99).1

/-- Player 0 (sole member and host of room 0) has closed its socket: the room
survives with an empty member list. -/
def stateZombie : State := (onclose stateRoom 0).1

/-- Player 2 has joined room 0 as well. -/
def stateFull : State := (handleJoinRoom stateTwo 2 (some 0) 99).1

end ServerTs

/- Generic lemmas about `List.find?`, `List.filter` and `List.map` used to
reason about the id-keyed map model. -/

theorem listFindMapPres {α : Type} (f : α → α) (pred : α → Bool)
    (hf : ∀ a, pred (f a) = pred a) :
    ∀ l : List α, (l.map f).find? pred = (l.find? pred).map f := by
  intro l
  induction l with
  | nil => rfl
  | cons a t ih =>
    simp only [List.map_cons, List.find?_cons, hf a]
    cases h : pred a <;> simp [ih]

theorem listFindFilterPres {α : Type} (pred keep : α → Bool)
    (h : ∀ a, pred a = true → keep a = true) :
    ∀ l : List α, (l.filter keep).find? pred = l.find? pred := by
  intro l
  induction l with
  | nil => rfl
  | cons a t ih =>
    by_cases hk : keep a = true
    · rw [List.filter_cons_of_pos hk]
      simp only [List.find?_cons]
      cases hp : pred a <;> simp [ih]
    · rw [List.filter_cons_of_neg hk]
      have hp : pred a = false := by
        cases hp : pred a
        · rfl
        · exact absurd (h a hp) hk
      simp only [List.find?_cons, hp, ih]

theorem listNodupMapEq {α β : Type} (f : α → β) :
    ∀ {l : List α}, (l.map f).Nodup → ∀ {a b : α}, a ∈ l → b ∈ l → f a = f b → a = b := by
  intro l
  induction l with
  | nil => intro _ a b ha; exact absurd ha (List.not_mem_nil a)
  | cons c t ih =>
    intro hn a b ha hb hf
    rw [List.map_cons, List.nodup_cons] at hn
    rcases List.mem_cons.mp ha with rfl | ha2
    · rcases List.mem_cons.mp hb with rfl | hb2
      · rfl
      · exact absurd (hf ▸ List.mem_map_of_mem f hb2) hn.1
    · rcases List.mem_cons.mp hb with rfl | hb2
      · exact absurd (hf ▸ List.mem_map_of_mem f ha2) hn.1
      · exact ih hn.2 ha2 hb2 hf

theorem listFindOfMemNodup {α β : Type} [DecidableEq β] (f : α → β) (q : β) :
    ∀ (l : List α), (l.map f).Nodup → ∀ a ∈ l, f a = q →
      l.find? (fun x => f x == q) = some a := by
  intro l
  induction l with
  | nil => intro _ a ha; exact absurd ha (List.not_mem_nil a)
  | cons c t ih =>
    intro hn a ha hfa
    rw [List.map_cons, List.nodup_cons] at hn
    by_cases hc : f c = q
    · have : a = c := by
        rcases List.mem_cons.mp ha with rfl | ha2
        · rfl
        · exact absurd ((hfa.trans hc.symm) ▸ List.mem_map_of_mem f ha2) hn.1
      subst this
      simp [List.find?_cons, hc]
    · have ha2 : a ∈ t := by
        rcases List.mem_cons.mp ha with rfl | ha2
        · exact absurd hfa hc
        · exact ha2
      have : (f c == q) = false := beq_eq_false_iff_ne.mpr hc
      simp only [List.find?_cons, this]
      exact ih hn.2 a ha2 hfa

theorem listFilterAll {α : Type} (p : α → Bool) :
    ∀ (l : List α), (∀ a ∈ l, p a = true) → l.filter p = l := by
  intro l
  induction l with
  | nil => intro _; rfl
  | cons a t ih =>
    intro h
    rw [List.filter_cons_of_pos (h a (List.mem_cons_self a t)),
      ih (fun b hb => h b (List.mem_cons_of_mem a hb))]

theorem listNodupAllEqSingleton {α : Type} :
    ∀ {l : List α} {a : α}, l.Nodup → a ∈ l → (∀ x ∈ l, x = a) → l = [a] := by
  intro l a hn ha hall
  match l, ha with
  | [b], _ =>
    rw [hall b (List.mem_cons_self b [])]
  | b :: c :: t, _ =>
    exfalso
    have hb : b = a := hall b (by simp)
    have hc : c = a := hall c (by simp)
    rw [List.nodup_cons] at hn
    exact hn.1 (by simp [hb, hc])

namespace Bingo

/- Interaction of the lookup helpers with the state-update helpers. -/

theorem findPlayer_updatePlayer (s : ServerState) (pid qid : Nat) (f : Player → Player)
    (hid : ∀ p, (f p).id = p.id) :
    findPlayer (updatePlayer s pid f) qid
      = (findPlayer s qid).map (fun p => if p.id == pid then f p else p) := by
  unfold findPlayer updatePlayer
  exact listFindMapPres _ _
    (fun a => by by_cases h : a.id == pid <;> simp [h, hid]) s.players

theorem findPlayer_updatePlayer_self (s : ServerState) (pid : Nat) (f : Player → Player)
    (hid : ∀ p, (f p).id = p.id) :
    findPlayer (updatePlayer s pid f) pid = (findPlayer s pid).map f := by
  rw [findPlayer_updatePlayer s pid pid f hid]
  cases h : findPlayer s pid with
  | none => rfl
  | some p =>
    have h2 : s.players.find? (fun x => x.id == pid) = some p := h
    have hp0 := List.find?_some h2
    have hp : (p.id == pid) = true := hp0
    have hpe : p.id = pid := beq_iff_eq.mp hp
    simp [hpe]

theorem findPlayer_updatePlayer_other (s : ServerState) (pid qid : Nat) (f : Player → Player)
    (hid : ∀ p, (f p).id = p.id) (hne : qid ≠ pid) :
    findPlayer (updatePlayer s pid f) qid = findPlayer s qid := by
  rw [findPlayer_updatePlayer s pid qid f hid]
  cases h : findPlayer s qid with
  | none => rfl
  | some p =>
    have h2 : s.players.find? (fun x => x.id == qid) = some p := h
    have hp0 := List.find?_some h2
    have hp : (p.id == qid) = true := hp0
    have hne2 : p.id ≠ pid := fun hc => hne ((beq_iff_eq.mp hp) ▸ hc ▸ rfl)
    simp [hne2]

theorem findRoom_updateRoom (s : ServerState) (rid qid : Nat) (f : Room → Room)
    (hid : ∀ r, (f r).id = r.id) :
    findRoom (updateRoom s rid f) qid
      = (findRoom s qid).map (fun r => if r.id == rid then f r else r) := by
  unfold findRoom updateRoom
  exact listFindMapPres _ _
    (fun a => by by_cases h : a.id == rid <;> simp [h, hid]) s.rooms

theorem findRoom_updateRoom_self (s : ServerState) (rid : Nat) (f : Room → Room)
    (hid : ∀ r, (f r).id = r.id) :
    findRoom (updateRoom s rid f) rid = (findRoom s rid).map f := by
  rw [findRoom_updateRoom s rid rid f hid]
  cases h : findRoom s rid with
  | none => rfl
  | some r =>
    have h2 : s.rooms.find? (fun x => x.id == rid) = some r := h
    have hr0 := List.find?_some h2
    have hr : (r.id == rid) = true := hr0
    have hre : r.id = rid := beq_iff_eq.mp hr
    simp [hre]

theorem findRoom_updateRoom_other (s : ServerState) (rid qid : Nat) (f : Room → Room)
    (hid : ∀ r, (f r).id = r.id) (hne : qid ≠ rid) :
    findRoom (updateRoom s rid f) qid = findRoom s qid := by
  rw [findRoom_updateRoom s rid qid f hid]
  cases h : findRoom s qid with
  | none => rfl
  | some r =>
    have h2 : s.rooms.find? (fun x => x.id == qid) = some r := h
    have hr0 := List.find?_some h2
    have hr : (r.id == qid) = true := hr0
    have hne2 : r.id ≠ rid := fun hc => hne ((beq_iff_eq.mp hr) ▸ hc ▸ rfl)
    simp [hne2]

theorem findRoom_removeRoom_self (s : ServerState) (rid : Nat) :
    findRoom (removeRoom s rid) rid = none := by
  unfold findRoom removeRoom
  refine List.find?_eq_none.mpr ?_
  intro r hr hbeq
  rcases List.mem_filter.mp hr with ⟨-, hne⟩
  rw [beq_iff_eq.mp hbeq] at hne
  simp at hne

theorem findRoom_removeRoom_other (s : ServerState) (rid qid : Nat) (hne : qid ≠ rid) :
    findRoom (removeRoom s rid) qid = findRoom s qid := by
  unfold findRoom removeRoom
  exact listFindFilterPres _ _
    (fun r hr => by
      have : r.id = qid := beq_iff_eq.mp hr
      simp [this, hne]) s.rooms

theorem findRoom_updatePlayer (s : ServerState) (pid qid : Nat) (f : Player → Player) :
    findRoom (updatePlayer s pid f) qid = findRoom s qid := rfl

theorem findPlayer_updateRoom (s : ServerState) (rid qid : Nat) (f : Room → Room) :
    findPlayer (updateRoom s rid f) qid = findPlayer s qid := rfl

theorem findPlayer_removeRoom (s : ServerState) (rid qid : Nat) :
    findPlayer (removeRoom s rid) qid = findPlayer s qid := rfl

theorem wsOpenOf_updateRoom (s : ServerState) (rid q : Nat) (f : Room → Room) :
    wsOpenOf (updateRoom s rid f) q = wsOpenOf s q := rfl

theorem wsOpenOf_updatePlayer (s : ServerState) (pid q : Nat) (f : Player → Player)
    (hid : ∀ p, (f p).id = p.id) (hws : ∀ p, (f p).wsOpen = p.wsOpen) :
    wsOpenOf (updatePlayer s pid f) q = wsOpenOf s q := by
  unfold wsOpenOf
  rw [findPlayer_updatePlayer s pid q f hid]
  cases h : findPlayer s q with
  | none => rfl
  | some p => by_cases hc : p.id = pid <;> simp [hc, hws]

theorem findPlayerOfMem (s : ServerState) (p : Player) (q : Nat)
    (hn : (s.players.map Player.id).Nodup) (hm : p ∈ s.players) (hq : p.id = q) :
    findPlayer s q = some p :=
  listFindOfMemNodup Player.id q s.players hn p hm hq

theorem findRoomOfMem (s : ServerState) (r : Room) (q : Nat)
    (hn : (s.rooms.map Room.id).Nodup) (hm : r ∈ s.rooms) (hq : r.id = q) :
    findRoom s q = some r :=
  listFindOfMemNodup Room.id q s.rooms hn r hm hq

theorem findPlayer_mem (s : ServerState) (pid : Nat) (p : Player)
    (h : findPlayer s pid = some p) : p ∈ s.players ∧ p.id = pid := by
  have h2 : s.players.find? (fun x => x.id == pid) = some p := h
  have hp0 := List.find?_some h2
  have hp : (p.id == pid) = true := hp0
  exact ⟨List.mem_of_find?_eq_some h2, beq_iff_eq.mp hp⟩

theorem findRoom_mem (s : ServerState) (rid : Nat) (r : Room)
    (h : findRoom s rid = some r) : r ∈ s.rooms ∧ r.id = rid := by
  have h2 : s.rooms.find? (fun x => x.id == rid) = some r := h
  have hr0 := List.find?_some h2
  have hr : (r.id == rid) = true := hr0
  exact ⟨List.mem_of_find?_eq_some h2, beq_iff_eq.mp hr⟩

/-- Every send produced by `broadcastToRoom` carries the given message and
never targets the excluded player. -/
theorem mem_broadcastToRoom (s : ServerState) (rid : Nat) (msg : OutMsg)
    (exclude : Option Nat) (x : Nat × OutMsg)
    (hx : x ∈ broadcastToRoom s rid msg exclude) :
    x.2 = msg ∧ ∀ e, exclude = some e → x.1 ≠ e := by
  unfold broadcastToRoom at hx
  cases h : findRoom s rid with
  | none => rw [h] at hx; exact absurd hx (List.not_mem_nil x)
  | some room =>
    rw [h] at hx
    rcases List.mem_map.mp hx with ⟨q, hq, rfl⟩
    rcases List.mem_filter.mp hq with ⟨-, hcond⟩
    refine ⟨rfl, ?_⟩
    rintro e rfl rfl
    simp at hcond

/-- When every non-excluded member's socket is open, `broadcastToRoom` sends
to exactly the non-excluded members, in membership order. -/
theorem broadcastToRoom_eq (s : ServerState) (rid : Nat) (msg : OutMsg)
    (epid : Nat) (room : Room) (hr : findRoom s rid = some room)
    (hws : ∀ q ∈ room.players, q ≠ epid → wsOpenOf s q = true) :
    broadcastToRoom s rid msg (some epid)
      = (room.players.filter (fun q => q != epid)).map (fun q => (q, msg)) := by
  simp only [broadcastToRoom, hr]
  congr 1
  refine List.filter_congr ?_
  intro q hq
  by_cases hqe : q = epid
  · subst hqe; simp
  · have h1 : (some epid != some q) = true := bne_iff_ne.mpr (by simpa using Ne.symm hqe)
    have h2 : (q != epid) = true := bne_iff_ne.mpr hqe
    simp [hws q hq hqe, h1, h2]

/-- With no exclusion and all sockets open, `broadcastToRoom` sends to every
member. -/
theorem broadcastToRoom_eq_all (s : ServerState) (rid : Nat) (msg : OutMsg)
    (room : Room) (hr : findRoom s rid = some room)
    (hws : ∀ q ∈ room.players, wsOpenOf s q = true) :
    broadcastToRoom s rid msg none = room.players.map (fun q => (q, msg)) := by
  simp only [broadcastToRoom, hr]
  rw [listFilterAll _ room.players (fun q hq => by simp [hws q hq])]

end Bingo

namespace Bingo

/-- Under well-formedness, the `isHost` flag checked by the handlers agrees
with being the `hostId` of one's current room. -/
theorem WF_isHost_iff (s : ServerState) (pid rid : Nat) (player : Player) (room : Room)
    (hWF : WF s) (hp : findPlayer s pid = some player)
    (hrid : player.roomId = some rid) (hr : findRoom s rid = some room) :
    player.isHost = true ↔ room.hostId = pid := by
  obtain ⟨hn1, hn2, h3, h4, h5, h6, h7, h8, h9, -⟩ := hWF
  obtain ⟨hpm, hpid⟩ := findPlayer_mem s pid player hp
  obtain ⟨hrm, hrid2⟩ := findRoom_mem s rid room hr
  constructor
  · intro hh
    obtain ⟨r2, hr2m, hr2id, hr2host⟩ := h8 player hpm hh
    have he : r2.id = rid := by
      rw [hr2id] at hrid
      exact Option.some.inj hrid
    have : r2 = room := listNodupMapEq Room.id hn2 hr2m hrm (by rw [he, hrid2])
    rw [← this, hr2host, hpid]
  · intro hh
    exact h9 room hrm player hpm (by rw [hrid, hrid2]) (by rw [hh, hpid])

end Bingo

/-- C1 counterexample: in the minimal Deno relay (`src/server.ts`), player 1
is a plain member of room 0 (its host is player 0), yet its `CALL_NUMBER`
request is not answered with any error — the variant has no error message at
all — and it mutates the room state: `calledNumbers` becomes `[7]` and the
call is broadcast to both members.  This refutes the claim that every
non-host `numberCall` returns `Unauthorized` and leaves the room unchanged. -/
theorem c1_counterexample :
    (ServerTs.findRoom ServerTs.stateTwo 0).map ServerTs.Room.hostId = some 0 ∧
    ServerTs.isHostOf ServerTs.stateTwo 1 = false ∧
    (ServerTs.findRoom (ServerTs.handleCallNumber ServerTs.stateTwo 1 7).1 0).map
      ServerTs.Room.calledNumbers = some [7] ∧
    (ServerTs.handleCallNumber ServerTs.stateTwo 1 7).2 =
      [(0, ServerTs.Out.callNumber 7 [7]), (1, ServerTs.Out.callNumber 7 [7])] := by
  decide

/-- C1 (amended): in the `BingoServer` variant, for a well-formed state, a
caller that is a member of its current room but is not that room's host (so
its `isHost` flag is false) has its `numberCall`, `startGame` and `stopGame`
requests answered with a single error reply and the server state is left
completely unchanged.  The minimal Deno relay performs no such check (see the
counterexample). -/
theorem c1_amended (s : Bingo.ServerState) (pid rid : Nat) (number : Int)
    (display : String) (player : Bingo.Player) (room : Bingo.Room)
    (hWF : Bingo.WF s) (hp : Bingo.findPlayer s pid = some player)
    (hrid : player.roomId = some rid) (hr : Bingo.findRoom s rid = some room)
    (hnh : room.hostId ≠ pid) :
    Bingo.handleNumberCall s pid number display
      = (s, [(pid, Bingo.OutMsg.errorMsg "Only host can call numbers")]) ∧
    Bingo.handleStartGame s pid
      = (s, [(pid, Bingo.OutMsg.errorMsg "Only host can start the game")]) ∧
    Bingo.handleStopGame s pid
      = (s, [(pid, Bingo.OutMsg.errorMsg "Only host can stop the game")]) := by
  have hih : player.isHost = false := by
    cases hcase : player.isHost
    · rfl
    · exact absurd ((Bingo.WF_isHost_iff s pid rid player room hWF hp hrid hr).mp hcase) hnh
  refine ⟨?_, ?_, ?_⟩
  · simp [Bingo.handleNumberCall, hp, hrid, hr, hih]
  · simp [Bingo.handleStartGame, hp, hrid, hr, hih]
  · simp [Bingo.handleStopGame, hp, hrid, hr, hih]

/-- C1 witness: the amended theorem applied to the concrete two-member room,
with player 1 as the non-host caller. -/
theorem c1_witness :
    Bingo.handleNumberCall Bingo.stateJoined 1 7 "B7"
      = (Bingo.stateJoined, [(1, Bingo.OutMsg.errorMsg "Only host can call numbers")]) ∧
    Bingo.handleStartGame Bingo.stateJoined 1
      = (Bingo.stateJoined, [(1, Bingo.OutMsg.errorMsg "Only host can start the game")]) ∧
    Bingo.handleStopGame Bingo.stateJoined 1
      = (Bingo.stateJoined, [(1, Bingo.OutMsg.errorMsg "Only host can stop the game")]) :=
  c1_amended Bingo.stateJoined 1 0 7 "B7"
    { id := 1, name := "", phone := "", roomId := some 0, isHost := false,
      connected := true, wsOpen := true }
    { id := 0, name := "r0", hostId := 0, players := [0, 1], gameType := "75ball",
      gameActive := false, calledNumbers := [], maxPlayers := 100 }
    (by decide) (by decide) (by decide) (by decide) (by decide)

/-- C8 counterexample: player 0 is registered (the request reaches the
`startGame` handler) but has no current room — a business-rule failure — and
the handler returns without sending anything at all, refuting the claim that
no recognized, well-formed request failing a business rule is silently
dropped. -/
theorem c8_counterexample :
    (Bingo.findPlayer Bingo.stateConnected 0).isSome = true ∧
    Bingo.handleStartGame Bingo.stateConnected 0 = (Bingo.stateConnected, []) := by
  decide

/-- C8 (amended): failures detected inside an existing room produce a directed
error reply (`joinRoom` to an absent room or to a full room replies with an
error), but a `startGame`, `stopGame` or `numberCall` from a registered player
with no current room is silently dropped: no reply of any kind is sent. -/
theorem c8_amended (s : Bingo.ServerState) (pid rid : Nat) (number : Int)
    (display : String) (player : Bingo.Player)
    (hp : Bingo.findPlayer s pid = some player) :
    (Bingo.findRoom s rid = none →
      Bingo.handleJoinRoom s pid rid
        = (s, [(pid, Bingo.OutMsg.errorMsg "Room not found")])) ∧
    (∀ room : Bingo.Room, Bingo.findRoom s rid = some room →
      room.players.length ≥ room.maxPlayers →
      Bingo.handleJoinRoom s pid rid
        = (s, [(pid, Bingo.OutMsg.errorMsg "Room is full")])) ∧
    (player.roomId = none →
      Bingo.handleStartGame s pid = (s, []) ∧
      Bingo.handleStopGame s pid = (s, []) ∧
      Bingo.handleNumberCall s pid number display = (s, [])) := by
  refine ⟨?_, ?_, ?_⟩
  · intro hnone
    simp [Bingo.handleJoinRoom, hp, hnone]
  · intro room hr hfull
    simp [Bingo.handleJoinRoom, hp, hr, hfull]
  · intro hnone
    refine ⟨?_, ?_, ?_⟩
    · simp [Bingo.handleStartGame, hp, hnone]
    · simp [Bingo.handleStopGame, hp, hnone]
    · simp [Bingo.handleNumberCall, hp, hnone]

/-- C8 witness: the amended theorem applied to the state with two registered
players and no room 9: joining the absent room 9 is answered with an error,
and player 0 — in no room in `stateConnected` — has its `startGame` silently
dropped. -/
theorem c8_witness :
    (Bingo.handleJoinRoom Bingo.stateConnected 0 9
        = (Bingo.stateConnected, [(0, Bingo.OutMsg.errorMsg "Room not found")])) ∧
    (Bingo.handleStartGame Bingo.stateConnected 0 = (Bingo.stateConnected, [])) := by
  have h := c8_amended Bingo.stateConnected 0 9 5 "B5"
    { id := 0, name := "", phone := "", roomId := none, isHost := false,
      connected := true, wsOpen := true } (by decide)
  exact ⟨h.1 (by decide), (h.2.2 (by decide)).1⟩

/-- C3 counterexample: the host of room 0 calls 5 a second time
(`calledNumbers` is already `[5]`).  No `Duplicate` (or any) error is sent to
the caller — the only output is the `numberCalled` broadcast to the other
member — refuting the claim that a second call of the same number returns a
`Duplicate` error to the caller. -/
theorem c3_counterexample :
    (Bingo.findRoom Bingo.stateCalled5 0).map Bingo.Room.calledNumbers = some [5] ∧
    Bingo.isHostOf Bingo.stateCalled5 0 = true ∧
    (Bingo.handleNumberCall Bingo.stateCalled5 0 5 "B5").1 = Bingo.stateCalled5 ∧
    (Bingo.handleNumberCall Bingo.stateCalled5 0 5 "B5").2 =
      [(1, Bingo.OutMsg.numberCalled 5 "B5" "")] ∧
    ((Bingo.handleNumberCall Bingo.stateCalled5 0 5 "B5").2.all
      (fun m => !Bingo.isError m.2)) = true := by
  decide

/-- C3 (amended): in the `BingoServer` variant a duplicate `numberCall` by the
host leaves the room's `calledNumbers` unchanged but is silently ignored: no
`Duplicate` error (indeed no reply at all) goes to the caller; a fresh number
is appended; consequently `calledNumbers` grows by at most one entry per call
and stays duplicate-free.  (The minimal Deno relay appends unconditionally
and performs no duplicate check.) -/
theorem c3_amended (s : Bingo.ServerState) (pid rid : Nat) (number : Int)
    (display : String) (player : Bingo.Player) (room : Bingo.Room)
    (hp : Bingo.findPlayer s pid = some player) (hrid : player.roomId = some rid)
    (hr : Bingo.findRoom s rid = some room) (hhost : player.isHost = true) :
    (number ∈ room.calledNumbers →
      Bingo.findRoom (Bingo.handleNumberCall s pid number display).1 rid = some room ∧
      ∀ m ∈ (Bingo.handleNumberCall s pid number display).2,
        Bingo.isError m.2 = false ∧ m.1 ≠ pid) ∧
    (number ∉ room.calledNumbers →
      Bingo.findRoom (Bingo.handleNumberCall s pid number display).1 rid
        = some { room with calledNumbers := room.calledNumbers ++ [number] }) ∧
    (room.calledNumbers.Nodup →
      ∀ room2 : Bingo.Room,
        Bingo.findRoom (Bingo.handleNumberCall s pid number display).1 rid = some room2 →
        room2.calledNumbers.Nodup ∧
        room2.calledNumbers.length ≤ room.calledNumbers.length + 1) := by
  have hid : ∀ r : Bingo.Room,
      ((fun r => if number ∈ r.calledNumbers then r
        else { r with calledNumbers := r.calledNumbers ++ [number] }) r).id = r.id := by
    intro r
    by_cases h : number ∈ r.calledNumbers <;> simp [h]
  have hres : Bingo.handleNumberCall s pid number display
      = (Bingo.updateRoom s rid (fun r =>
          if number ∈ r.calledNumbers then r
          else { r with calledNumbers := r.calledNumbers ++ [number] }),
        Bingo.broadcastToRoom
          (Bingo.updateRoom s rid (fun r =>
            if number ∈ r.calledNumbers then r
            else { r with calledNumbers := r.calledNumbers ++ [number] })) rid
          (Bingo.OutMsg.numberCalled number display player.name) (some pid)) := by
    simp [Bingo.handleNumberCall, hp, hrid, hr, hhost]
  have hfind : Bingo.findRoom (Bingo.handleNumberCall s pid number display).1 rid
      = some (if number ∈ room.calledNumbers then room
        else { room with calledNumbers := room.calledNumbers ++ [number] }) := by
    rw [hres]
    rw [Bingo.findRoom_updateRoom_self s rid _ hid, hr]
    rfl
  refine ⟨?_, ?_, ?_⟩
  · intro hdup
    refine ⟨by rw [hfind, if_pos hdup], ?_⟩
    intro m hm
    rw [hres] at hm
    have := Bingo.mem_broadcastToRoom _ rid _ (some pid) m hm
    refine ⟨by rw [this.1]; rfl, this.2 pid rfl⟩
  · intro hnew
    rw [hfind, if_neg hnew]
  · intro hnodup room2 h2
    rw [hfind] at h2
    by_cases hdup : number ∈ room.calledNumbers
    · rw [if_pos hdup] at h2
      cases Option.some.inj h2
      exact ⟨hnodup, Nat.le_succ _⟩
    · rw [if_neg hdup] at h2
      cases Option.some.inj h2
      refine ⟨?_, by simp⟩
      refine List.Nodup.append hnodup (List.nodup_singleton number) ?_
      intro a ha hb
      rw [List.mem_singleton.mp hb] at ha
      exact hdup ha

/-- C3 witness: the amended theorem applied to the concrete room whose
`calledNumbers` is `[5]`, instantiating both the duplicate case (for 5) and
the uniqueness conclusion. -/
theorem c3_witness :
    Bingo.findRoom (Bingo.handleNumberCall Bingo.stateCalled5 0 5 "B5").1 0
      = some { id := 0, name := "r0", hostId := 0, players := [0, 1],
               gameType := "75ball", gameActive := false, calledNumbers := [5],
               maxPlayers := 100 } ∧
    Bingo.findRoom (Bingo.handleNumberCall Bingo.stateCalled5 0 7 "B7").1 0
      = some { id := 0, name := "r0", hostId := 0, players := [0, 1],
               gameType := "75ball", gameActive := false, calledNumbers := [5, 7],
               maxPlayers := 100 } := by
  have h5 := c3_amended Bingo.stateCalled5 0 0 5 "B5"
    { id := 0, name := "", phone := "", roomId := some 0, isHost := true,
      connected := true, wsOpen := true }
    { id := 0, name := "r0", hostId := 0, players := [0, 1], gameType := "75ball",
      gameActive := false, calledNumbers := [5], maxPlayers := 100 }
    (by decide) (by decide) (by decide) (by decide)
  have h7 := c3_amended Bingo.stateCalled5 0 0 7 "B7"
    { id := 0, name := "", phone := "", roomId := some 0, isHost := true,
      connected := true, wsOpen := true }
    { id := 0, name := "r0", hostId := 0, players := [0, 1], gameType := "75ball",
      gameActive := false, calledNumbers := [5], maxPlayers := 100 }
    (by decide) (by decide) (by decide) (by decide)
  exact ⟨(h5.1 (by decide)).1, h7.2.1 (by decide)⟩

/-- C9: in the `BingoServer` variant, when the host calls a number that is
already in `calledNumbers`, the room state is unchanged, yet `numberCalled`
is still broadcast to exactly the other room members (with open sockets), and
the host receives nothing — in particular no error reply. -/
theorem c9_duplicate_still_broadcast (s : Bingo.ServerState) (pid rid : Nat)
    (number : Int) (display : String) (player : Bingo.Player) (room : Bingo.Room)
    (hp : Bingo.findPlayer s pid = some player) (hrid : player.roomId = some rid)
    (hr : Bingo.findRoom s rid = some room) (hhost : player.isHost = true)
    (hdup : number ∈ room.calledNumbers)
    (hws : ∀ q ∈ room.players, q ≠ pid → Bingo.wsOpenOf s q = true) :
    Bingo.findRoom (Bingo.handleNumberCall s pid number display).1 rid = some room ∧
    (Bingo.handleNumberCall s pid number display).2
      = (room.players.filter (fun q => q != pid)).map
          (fun q => (q, Bingo.OutMsg.numberCalled number display player.name)) ∧
    ∀ m ∈ (Bingo.handleNumberCall s pid number display).2,
      m.1 ≠ pid ∧ Bingo.isError m.2 = false := by
  have hid : ∀ r : Bingo.Room,
      ((fun r => if number ∈ r.calledNumbers then r
        else { r with calledNumbers := r.calledNumbers ++ [number] }) r).id = r.id := by
    intro r
    by_cases h : number ∈ r.calledNumbers <;> simp [h]
  have hres : Bingo.handleNumberCall s pid number display
      = (Bingo.updateRoom s rid (fun r =>
          if number ∈ r.calledNumbers then r
          else { r with calledNumbers := r.calledNumbers ++ [number] }),
        Bingo.broadcastToRoom
          (Bingo.updateRoom s rid (fun r =>
            if number ∈ r.calledNumbers then r
            else { r with calledNumbers := r.calledNumbers ++ [number] })) rid
          (Bingo.OutMsg.numberCalled number display player.name) (some pid)) := by
    simp [Bingo.handleNumberCall, hp, hrid, hr, hhost]
  have hfind : Bingo.findRoom (Bingo.handleNumberCall s pid number display).1 rid
      = some room := by
    rw [hres, Bingo.findRoom_updateRoom_self s rid _ hid, hr]
    simp [hdup]
  refine ⟨hfind, ?_, ?_⟩
  · rw [hres]
    refine Bingo.broadcastToRoom_eq _ rid _ pid room ?_ ?_
    · rw [hres] at hfind
      exact hfind
    · intro q hq hqe
      rw [Bingo.wsOpenOf_updateRoom]
      exact hws q hq hqe
  · intro m hm
    rw [hres] at hm
    have := Bingo.mem_broadcastToRoom _ rid _ (some pid) m hm
    exact ⟨this.2 pid rfl, by rw [this.1]; rfl⟩

/-- C9 witness: the host of room 0 re-calls 5; the other member (player 1)
still receives the `numberCalled` broadcast while the room and the host's
inbox are untouched. -/
theorem c9_witness :
    Bingo.findRoom (Bingo.handleNumberCall Bingo.stateCalled5 0 5 "B5").1 0
      = some { id := 0, name := "r0", hostId := 0, players := [0, 1],
               gameType := "75ball", gameActive := false, calledNumbers := [5],
               maxPlayers := 100 } ∧
    (Bingo.handleNumberCall Bingo.stateCalled5 0 5 "B5").2
      = [(1, Bingo.OutMsg.numberCalled 5 "B5" "")] := by
  have h := c9_duplicate_still_broadcast Bingo.stateCalled5 0 0 5 "B5"
    { id := 0, name := "", phone := "", roomId := some 0, isHost := true,
      connected := true, wsOpen := true }
    { id := 0, name := "r0", hostId := 0, players := [0, 1], gameType := "75ball",
      gameActive := false, calledNumbers := [5], maxPlayers := 100 }
    (by decide) (by decide) (by decide) (by decide) (by decide) (by decide)
  exact ⟨h.1, h.2.1⟩

namespace Bingo

theorem wsOpenOf_updatePlayer_other (s : ServerState) (pid q : Nat) (f : Player → Player)
    (hid : ∀ p, (f p).id = p.id) (hq : q ≠ pid) :
    wsOpenOf (updatePlayer s pid f) q = wsOpenOf s q := by
  unfold wsOpenOf
  rw [findPlayer_updatePlayer_other s pid q f hid hq]

theorem findRoom_leaveHostState (s : ServerState) (pid rid h : Nat) (t : List Nat) :
    findRoom (leaveHostState s pid rid h t) rid
      = (findRoom s rid).map (fun r => { r with players := h :: t, hostId := h }) := by
  unfold leaveHostState
  rw [findRoom_updatePlayer,
    findRoom_updateRoom_self _ _ (fun r => { r with players := h :: t, hostId := h })
      (fun r => rfl),
    findRoom_updatePlayer]

theorem findPlayer_leaveHostState_newHost (s : ServerState) (pid rid h : Nat)
    (t : List Nat) (hne : h ≠ pid) :
    findPlayer (leaveHostState s pid rid h t) h
      = (findPlayer s h).map (fun p => { p with isHost := true }) := by
  unfold leaveHostState
  rw [findPlayer_updatePlayer_self _ _ (fun p => { p with isHost := true }) (fun p => rfl),
    findPlayer_updateRoom,
    findPlayer_updatePlayer_other _ _ _
      (fun p => { p with roomId := none, isHost := false }) (fun p => rfl) hne]

theorem wsOpenOf_leaveHostState (s : ServerState) (pid rid h : Nat) (t : List Nat)
    (q : Nat) :
    wsOpenOf (leaveHostState s pid rid h t) q = wsOpenOf s q := by
  unfold leaveHostState
  rw [wsOpenOf_updatePlayer _ _ _ (fun p => { p with isHost := true })
      (fun p => rfl) (fun p => rfl),
    wsOpenOf_updateRoom,
    wsOpenOf_updatePlayer _ _ _ (fun p => { p with roomId := none, isHost := false })
      (fun p => rfl) (fun p => rfl)]

/-- Reduction of `handleLeaveRoom` in the host-handoff branch. -/
theorem leave_handoff_reduce (s : ServerState) (pid rid : Nat) (room : Room)
    (h : Nat) (t : List Nat) (hr : findRoom s rid = some room)
    (hhost : room.hostId = pid)
    (hrem : room.players.filter (fun q => q != pid) = h :: t) :
    handleLeaveRoom s pid rid
      = (leaveHostState s pid rid h t,
         broadcastToRoom (leaveHostState s pid rid h t) rid
           (OutMsg.newHost h (nameOf (leaveHostState s pid rid h t) h)) none ++
         broadcastToRoom (leaveHostState s pid rid h t) rid
           (OutMsg.playerLeftRoom pid (h :: t).length) none) := by
  have hhb : (room.hostId == pid) = true := beq_iff_eq.mpr hhost
  simp [handleLeaveRoom, hr, hrem, hhb, leaveHostState]

end Bingo

/-- C4 counterexample: in the minimal Deno relay, the host (player 0) of room
0 disconnects while players 1 and 2 remain; `hostId` still names the departed
player, no remaining member becomes host, and the only broadcast is
`PLAYER_LEFT` — the variant has no `newHost` message at all.  This refutes
the claim for the cited `socket.onclose` handler. -/
theorem c4_counterexample :
    (ServerTs.onclose ServerTs.stateFull 0).1.rooms
      = [{ id := 0, hostId := 0, players := [1, 2], calledNumbers := [],
           gameActive := false }] ∧
    ServerTs.isHostOf (ServerTs.onclose ServerTs.stateFull 0).1 1 = false ∧
    ServerTs.isHostOf (ServerTs.onclose ServerTs.stateFull 0).1 2 = false ∧
    (ServerTs.onclose ServerTs.stateFull 0).2
      = [(1, ServerTs.Out.playerLeft 0), (2, ServerTs.Out.playerLeft 0)] := by
  decide

/-- C4 (amended): in the `BingoServer` variant, when the host leaves its room
(or its socket disconnects) with at least one member remaining, the earliest
joined remaining member becomes the new host within the same operation — the
room's `hostId` is reassigned to it and its `isHost` flag is set — and a
`newHost` event is broadcast to every remaining member (with an open socket).
The minimal Deno relay's `socket.onclose` performs no handoff at all (see the
counterexample). -/
theorem c4_amended (s : Bingo.ServerState) (pid rid : Nat) (room : Bingo.Room)
    (h : Nat) (t : List Nat) (ph : Bingo.Player)
    (hr : Bingo.findRoom s rid = some room) (hhost : room.hostId = pid)
    (hrem : room.players.filter (fun q => q != pid) = h :: t)
    (hph : Bingo.findPlayer s h = some ph)
    (hws : ∀ q ∈ h :: t, Bingo.wsOpenOf s q = true) :
    (Bingo.findRoom (Bingo.handleLeaveRoom s pid rid).1 rid
        = some { room with players := h :: t, hostId := h } ∧
     Bingo.findPlayer (Bingo.handleLeaveRoom s pid rid).1 h
        = some { ph with isHost := true } ∧
     (Bingo.handleLeaveRoom s pid rid).2
        = (h :: t).map (fun q => (q, Bingo.OutMsg.newHost h ph.name)) ++
          (h :: t).map (fun q => (q, Bingo.OutMsg.playerLeftRoom pid (h :: t).length))) ∧
    (∀ player : Bingo.Player, Bingo.findPlayer s pid = some player →
      player.roomId = some rid →
      Bingo.findRoom (Bingo.handleDisconnect s pid).1 rid
          = some { room with players := h :: t, hostId := h } ∧
      Bingo.findPlayer (Bingo.handleDisconnect s pid).1 h
          = some { ph with isHost := true } ∧
      (Bingo.handleDisconnect s pid).2
          = (h :: t).map (fun q => (q, Bingo.OutMsg.newHost h ph.name)) ++
            (h :: t).map (fun q => (q, Bingo.OutMsg.playerLeftRoom pid (h :: t).length))) := by
  have hsub : ∀ q ∈ h :: t, q ≠ pid := by
    intro q hq
    have hmem : q ∈ room.players.filter (fun x => x != pid) := hrem ▸ hq
    exact bne_iff_ne.mp (List.mem_filter.mp hmem).2
  have hne : h ≠ pid := hsub h (List.mem_cons_self h t)
  have main : ∀ s2 : Bingo.ServerState, Bingo.findRoom s2 rid = some room →
      Bingo.findPlayer s2 h = some ph →
      (∀ q ∈ h :: t, Bingo.wsOpenOf s2 q = true) →
      Bingo.findRoom (Bingo.handleLeaveRoom s2 pid rid).1 rid
          = some { room with players := h :: t, hostId := h } ∧
      Bingo.findPlayer (Bingo.handleLeaveRoom s2 pid rid).1 h
          = some { ph with isHost := true } ∧
      (Bingo.handleLeaveRoom s2 pid rid).2
          = (h :: t).map (fun q => (q, Bingo.OutMsg.newHost h ph.name)) ++
            (h :: t).map (fun q => (q, Bingo.OutMsg.playerLeftRoom pid (h :: t).length)) := by
    intro s2 hr2 hph2 hws2
    rw [Bingo.leave_handoff_reduce s2 pid rid room h t hr2 hhost hrem]
    have hfr : Bingo.findRoom (Bingo.leaveHostState s2 pid rid h t) rid
        = some { room with players := h :: t, hostId := h } := by
      rw [Bingo.findRoom_leaveHostState, hr2]
      rfl
    have hfp : Bingo.findPlayer (Bingo.leaveHostState s2 pid rid h t) h
        = some { ph with isHost := true } := by
      rw [Bingo.findPlayer_leaveHostState_newHost s2 pid rid h t hne, hph2]
      rfl
    have hname : Bingo.nameOf (Bingo.leaveHostState s2 pid rid h t) h = ph.name := by
      unfold Bingo.nameOf
      rw [hfp]
      rfl
    have hwsL : ∀ q ∈ ({ room with players := h :: t, hostId := h } : Bingo.Room).players,
        Bingo.wsOpenOf (Bingo.leaveHostState s2 pid rid h t) q = true := by
      intro q hq
      rw [Bingo.wsOpenOf_leaveHostState]
      exact hws2 q hq
    refine ⟨hfr, hfp, ?_⟩
    rw [hname]
    rw [Bingo.broadcastToRoom_eq_all _ rid (Bingo.OutMsg.newHost h ph.name)
        { room with players := h :: t, hostId := h } hfr hwsL]
    rw [Bingo.broadcastToRoom_eq_all _ rid
        (Bingo.OutMsg.playerLeftRoom pid (h :: t).length)
        { room with players := h :: t, hostId := h } hfr hwsL]
  refine ⟨main s hr hph hws, ?_⟩
  intro player hpp hprid
  have hred : Bingo.handleDisconnect s pid
      = Bingo.handleLeaveRoom
          (Bingo.updatePlayer s pid (fun p => { p with connected := false, wsOpen := false }))
          pid rid := by
    simp [Bingo.handleDisconnect, hpp, hprid]
  rw [hred]
  refine main _ hr ?_ ?_
  · rw [Bingo.findPlayer_updatePlayer_other _ _ _
      (fun p => { p with connected := false, wsOpen := false }) (fun p => rfl) hne]
    exact hph
  · intro q hq
    rw [Bingo.wsOpenOf_updatePlayer_other _ _ _
      (fun p => { p with connected := false, wsOpen := false }) (fun p => rfl) (hsub q hq)]
    exact hws q hq

/-- C4 witness: the host of the concrete two-member room 0 leaves; player 1
becomes host and receives `newHost`, and the same conclusions hold when the
host disconnects instead. -/
theorem c4_witness :
    Bingo.findRoom (Bingo.handleLeaveRoom Bingo.stateJoined 0 0).1 0
      = some { id := 0, name := "r0", hostId := 1, players := [1],
               gameType := "75ball", gameActive := false, calledNumbers := [],
               maxPlayers := 100 } ∧
    Bingo.findPlayer (Bingo.handleLeaveRoom Bingo.stateJoined 0 0).1 1
      = some { id := 1, name := "", phone := "", roomId := some 0, isHost := true,
               connected := true, wsOpen := true } ∧
    (Bingo.handleLeaveRoom Bingo.stateJoined 0 0).2
      = [(1, Bingo.OutMsg.newHost 1 ""), (1, Bingo.OutMsg.playerLeftRoom 0 1)] ∧
    (Bingo.handleDisconnect Bingo.stateJoined 0).2
      = [(1, Bingo.OutMsg.newHost 1 ""), (1, Bingo.OutMsg.playerLeftRoom 0 1)] := by
  have hmain := c4_amended Bingo.stateJoined 0 0
    { id := 0, name := "r0", hostId := 0, players := [0, 1], gameType := "75ball",
      gameActive := false, calledNumbers := [], maxPlayers := 100 }
    1 []
    { id := 1, name := "", phone := "", roomId := some 0, isHost := false,
      connected := true, wsOpen := true }
    (by decide) (by decide) (by decide) (by decide) (by decide)
  have hdis := hmain.2
    { id := 0, name := "", phone := "", roomId := some 0, isHost := true,
      connected := true, wsOpen := true }
    (by decide) (by decide)
  exact ⟨hmain.1.1, hmain.1.2.1, hmain.1.2.2, hdis.2.2⟩

/-- C5 counterexample: in the minimal Deno relay, when the last member of room
0 disconnects, the room is NOT removed — it survives with an empty member
list — and a later `JOIN_ROOM` for it does not return `NotFound` but happily
joins the zombie room.  This refutes the claim for the cited
`socket.onclose` handler. -/
theorem c5_counterexample :
    ServerTs.stateZombie.rooms
      = [{ id := 0, hostId := 0, players := [], calledNumbers := [],
           gameActive := false }] ∧
    (ServerTs.findRoom (ServerTs.handleJoinRoom ServerTs.stateZombie 1 (some 0) 99).1 0).map
      ServerTs.Room.players = some [1] := by
  decide

/-- C5 (amended): in the `BingoServer` variant, when the last member leaves a
room (explicitly or by disconnect) the room is removed from the store in the
same operation with no events, and any later `joinRoom` for that room id by a
registered player is answered with the error reply `Room not found`.  The
minimal Deno relay never deletes rooms on disconnect and its join flow has no
`NotFound` outcome (see the counterexample). -/
theorem c5_amended (s : Bingo.ServerState) (pid rid : Nat) (room : Bingo.Room)
    (hr : Bingo.findRoom s rid = some room)
    (hlast : room.players.filter (fun q => q != pid) = []) :
    Bingo.findRoom (Bingo.handleLeaveRoom s pid rid).1 rid = none ∧
    (Bingo.handleLeaveRoom s pid rid).2 = [] ∧
    (∀ pid2 player2, Bingo.findPlayer (Bingo.handleLeaveRoom s pid rid).1 pid2 = some player2 →
      Bingo.handleJoinRoom (Bingo.handleLeaveRoom s pid rid).1 pid2 rid
        = ((Bingo.handleLeaveRoom s pid rid).1,
           [(pid2, Bingo.OutMsg.errorMsg "Room not found")])) ∧
    (∀ player : Bingo.Player, Bingo.findPlayer s pid = some player →
      player.roomId = some rid →
      Bingo.findRoom (Bingo.handleDisconnect s pid).1 rid = none ∧
      (Bingo.handleDisconnect s pid).2 = []) := by
  have key : ∀ s2 : Bingo.ServerState, Bingo.findRoom s2 rid = some room →
      Bingo.handleLeaveRoom s2 pid rid
        = (Bingo.removeRoom (Bingo.updatePlayer s2 pid
            (fun p => { p with roomId := none, isHost := false })) rid, []) := by
    intro s2 h2
    simp [Bingo.handleLeaveRoom, h2, hlast]
  have hgone : Bingo.findRoom (Bingo.handleLeaveRoom s pid rid).1 rid = none := by
    rw [key s hr]
    exact Bingo.findRoom_removeRoom_self _ rid
  refine ⟨hgone, by rw [key s hr], ?_, ?_⟩
  · intro pid2 player2 hp2
    simp [Bingo.handleJoinRoom, hp2, hgone]
  · intro player hpp hprid
    have hred : Bingo.handleDisconnect s pid
        = Bingo.handleLeaveRoom
            (Bingo.updatePlayer s pid
              (fun p => { p with connected := false, wsOpen := false })) pid rid := by
      simp [Bingo.handleDisconnect, hpp, hprid]
    rw [hred, key (Bingo.updatePlayer s pid
      (fun p => { p with connected := false, wsOpen := false }))
      (by rw [Bingo.findRoom_updatePlayer]; exact hr)]
    exact ⟨Bingo.findRoom_removeRoom_self _ rid, rfl⟩

/-- C5 witness: the sole member (and host) of the concrete room 0 leaves; the
room disappears, no event is emitted, and player 1's later `joinRoom` is
answered `Room not found`; the same holds when the member disconnects. -/
theorem c5_witness :
    Bingo.findRoom (Bingo.handleLeaveRoom Bingo.stateRoom 0 0).1 0 = none ∧
    (Bingo.handleLeaveRoom Bingo.stateRoom 0 0).2 = [] ∧
    Bingo.handleJoinRoom (Bingo.handleLeaveRoom Bingo.stateRoom 0 0).1 1 0
      = ((Bingo.handleLeaveRoom Bingo.stateRoom 0 0).1,
         [(1, Bingo.OutMsg.errorMsg "Room not found")]) ∧
    Bingo.findRoom (Bingo.handleDisconnect Bingo.stateRoom 0).1 0 = none := by
  have h := c5_amended Bingo.stateRoom 0 0
    { id := 0, name := "r0", hostId := 0, players := [0], gameType := "75ball",
      gameActive := false, calledNumbers := [], maxPlayers := 100 }
    (by decide) (by decide)
  have hd := h.2.2.2
    { id := 0, name := "", phone := "", roomId := some 0, isHost := true,
      connected := true, wsOpen := true }
    (by decide) (by decide)
  refine ⟨h.1, h.2.1, ?_, hd.1⟩
  exact h.2.2.1 1
    { id := 1, name := "", phone := "", roomId := none, isHost := false,
      connected := true, wsOpen := true }
    (by decide)

/-- C10: in the `BingoServer` variant, a chat message with non-empty text and
an existing target room from any registered player — member of that room or
not, the sender's membership is never consulted — is broadcast as
`chatMessage` to exactly the members of the room other than the sender (with
open sockets), and the state is unchanged. -/
theorem c10_chat_no_membership_check (s : Bingo.ServerState) (pid rid : Nat)
    (text : String) (player : Bingo.Player) (room : Bingo.Room)
    (hp : Bingo.findPlayer s pid = some player) (htext : text ≠ "")
    (hr : Bingo.findRoom s rid = some room)
    (hws : ∀ q ∈ room.players, q ≠ pid → Bingo.wsOpenOf s q = true) :
    Bingo.handleChat s pid text (some rid)
      = (s, (room.players.filter (fun q => q != pid)).map
          (fun q => (q, Bingo.OutMsg.chatMessage player.name text))) := by
  have hred : Bingo.handleChat s pid text (some rid)
      = (s, Bingo.broadcastToRoom s rid (Bingo.OutMsg.chatMessage player.name text)
          (some pid)) := by
    simp [Bingo.handleChat, hp, htext]
  rw [hred, Bingo.broadcastToRoom_eq s rid _ pid room hr hws]

/-- C10 witness: player 2 is registered but not a member of room 0, yet its
chat into room 0 is delivered to both members 0 and 1 and to nobody else. -/
theorem c10_witness :
    (Bingo.findRoom Bingo.stateThree 0).map Bingo.Room.players = some [0, 1] ∧
    Bingo.handleChat Bingo.stateThree 2 "hi" (some 0)
      = (Bingo.stateThree,
         [(0, Bingo.OutMsg.chatMessage "" "hi"), (1, Bingo.OutMsg.chatMessage "" "hi")]) := by
  refine ⟨by decide, ?_⟩
  have h := c10_chat_no_membership_check Bingo.stateThree 2 0 "hi"
    { id := 2, name := "", phone := "", roomId := none, isHost := false,
      connected := true, wsOpen := true }
    { id := 0, name := "r0", hostId := 0, players := [0, 1], gameType := "75ball",
      gameActive := false, calledNumbers := [], maxPlayers := 100 }
    (by decide) (by decide) (by decide) (by decide)
  exact h

namespace Bingo

theorem mem_mapInsert_self (l : List Nat) (x : Nat) : x ∈ mapInsert l x := by
  unfold mapInsert
  by_cases h : x ∈ l
  · rwa [if_pos h]
  · rw [if_neg h]
    simp

/-- Leaving room `old` does not change the lookup of any other room. -/
theorem findRoom_leave_other (s : ServerState) (pid old qid : Nat) (hne : qid ≠ old) :
    findRoom (handleLeaveRoom s pid old).1 qid = findRoom s qid := by
  cases hr : findRoom s old with
  | none => simp [handleLeaveRoom, hr]
  | some room =>
    cases hrem : room.players.filter (fun q => q != pid) with
    | nil =>
      simp only [handleLeaveRoom, hr, hrem]
      rw [findRoom_removeRoom_other _ _ _ hne, findRoom_updatePlayer]
    | cons h t =>
      cases hh : room.hostId == pid with
      | true =>
        rw [leave_handoff_reduce s pid old room h t hr (beq_iff_eq.mp hh) hrem]
        unfold leaveHostState
        rw [findRoom_updatePlayer,
          findRoom_updateRoom_other _ _ _
            (fun r => { r with players := h :: t, hostId := h }) (fun r => rfl) hne,
          findRoom_updatePlayer]
      | false =>
        simp only [handleLeaveRoom, hr, hrem, hh, Bool.false_eq_true, if_false]
        rw [findRoom_updateRoom_other _ _ _
            (fun r => { r with players := h :: t }) (fun r => rfl) hne,
          findRoom_updatePlayer]

/-- After leaving room `old`, the leaver is not among its members (if the room
still exists at all). -/
theorem leave_removes_pid (s : ServerState) (pid old : Nat) :
    ∀ room2 : Room, findRoom (handleLeaveRoom s pid old).1 old = some room2 →
      pid ∉ room2.players := by
  intro room2 hfind
  cases hr : findRoom s old with
  | none =>
    simp only [handleLeaveRoom, hr] at hfind
    simp at hfind
  | some room =>
    have hnotmem : pid ∉ room.players.filter (fun q => q != pid) := by
      intro hmem
      have := (List.mem_filter.mp hmem).2
      exact (bne_iff_ne.mp this) rfl
    cases hrem : room.players.filter (fun q => q != pid) with
    | nil =>
      simp only [handleLeaveRoom, hr, hrem] at hfind
      rw [findRoom_removeRoom_self] at hfind
      cases hfind
    | cons h t =>
      cases hh : room.hostId == pid with
      | true =>
        rw [leave_handoff_reduce s pid old room h t hr (beq_iff_eq.mp hh) hrem] at hfind
        rw [findRoom_leaveHostState, hr] at hfind
        have : room2 = { room with players := h :: t, hostId := h } :=
          (Option.some.inj hfind).symm
        rw [this]
        rw [hrem] at hnotmem
        exact hnotmem
      | false =>
        simp only [handleLeaveRoom, hr, hrem, hh, Bool.false_eq_true, if_false] at hfind
        rw [findRoom_updateRoom_self _ _ (fun r => { r with players := h :: t })
            (fun r => rfl), findRoom_updatePlayer, hr] at hfind
        have : room2 = { room with players := h :: t } := (Option.some.inj hfind).symm
        rw [this]
        rw [hrem] at hnotmem
        exact hnotmem

/-- The leave handler never emits an error message. -/
theorem leave_no_error (s : ServerState) (pid old : Nat) :
    ∀ m ∈ (handleLeaveRoom s pid old).2, isError m.2 = false := by
  intro m hm
  cases hr : findRoom s old with
  | none => simp [handleLeaveRoom, hr] at hm
  | some room =>
    cases hrem : room.players.filter (fun q => q != pid) with
    | nil =>
      simp only [handleLeaveRoom, hr, hrem] at hm
      cases hm
    | cons h t =>
      cases hh : room.hostId == pid with
      | true =>
        rw [leave_handoff_reduce s pid old room h t hr (beq_iff_eq.mp hh) hrem] at hm
        rcases List.mem_append.mp hm with hm1 | hm2
        · rw [(mem_broadcastToRoom _ _ _ _ m hm1).1]; rfl
        · rw [(mem_broadcastToRoom _ _ _ _ m hm2).1]; rfl
      | false =>
        simp only [handleLeaveRoom, hr, hrem, hh, Bool.false_eq_true, if_false] at hm
        rw [(mem_broadcastToRoom _ _ _ _ m hm).1]
        rfl

/-- The leave handler keeps every registry record present (it only updates
fields). -/
theorem findPlayer_leave_isSome (s : ServerState) (pid old pid2 : Nat) :
    (findPlayer (handleLeaveRoom s pid old).1 pid2).isSome
      = (findPlayer s pid2).isSome := by
  cases hr : findRoom s old with
  | none => simp [handleLeaveRoom, hr]
  | some room =>
    cases hrem : room.players.filter (fun q => q != pid) with
    | nil =>
      simp only [handleLeaveRoom, hr, hrem]
      rw [findPlayer_removeRoom,
        findPlayer_updatePlayer s pid pid2
          (fun p => { p with roomId := none, isHost := false }) (fun p => rfl)]
      cases findPlayer s pid2 <;> rfl
    | cons h t =>
      cases hh : room.hostId == pid with
      | true =>
        rw [leave_handoff_reduce s pid old room h t hr (beq_iff_eq.mp hh) hrem]
        unfold leaveHostState
        rw [findPlayer_updatePlayer _ h pid2
            (fun p => { p with isHost := true }) (fun p => rfl),
          findPlayer_updateRoom,
          findPlayer_updatePlayer _ pid pid2
            (fun p => { p with roomId := none, isHost := false }) (fun p => rfl)]
        cases findPlayer s pid2 <;> rfl
      | false =>
        simp only [handleLeaveRoom, hr, hrem, hh, Bool.false_eq_true, if_false]
        rw [findPlayer_updateRoom,
          findPlayer_updatePlayer _ pid pid2
            (fun p => { p with roomId := none, isHost := false }) (fun p => rfl)]
        cases findPlayer s pid2 <;> rfl

end Bingo

/-- C6 counterexample: player 1 hosts room 1 while player 0 hosts room 0;
player 1 sends `joinRoom` for room 0.  Instead of an `AlreadyInRoom` error
with no membership change, the join succeeds: player 1 silently leaves room 1
(which is deleted), becomes a member of room 0, and receives `roomJoined`. -/
theorem c6_counterexample :
    (Bingo.findRoom (Bingo.handleJoinRoom Bingo.stateTwoRooms 1 0).1 0).map
      Bingo.Room.players = some [0, 1] ∧
    Bingo.findRoom (Bingo.handleJoinRoom Bingo.stateTwoRooms 1 0).1 1 = none ∧
    ((Bingo.handleJoinRoom Bingo.stateTwoRooms 1 0).2.all
      (fun m => !Bingo.isError m.2)) = true ∧
    (Bingo.handleJoinRoom Bingo.stateTwoRooms 1 0).2
      = [(1, Bingo.OutMsg.roomJoined 0 "r0" "75ball" 0 2 [] false),
         (0, Bingo.OutMsg.playerJoinedRoom 1 "" "" 2)] := by
  decide

/-- C6 (amended): a `joinRoom` by a player currently in a different room does
not fail — there is no `AlreadyInRoom` error.  The handler first runs the
leave logic for the old room (removing the caller there, with the usual host
handoff or room deletion), then adds the caller to the target room, replies
`roomJoined`, and emits no error message. -/
theorem c6_amended (s : Bingo.ServerState) (pid rid old : Nat)
    (player : Bingo.Player) (room : Bingo.Room)
    (hp : Bingo.findPlayer s pid = some player) (hold : player.roomId = some old)
    (hne : old ≠ rid) (hr : Bingo.findRoom s rid = some room)
    (hcap : room.players.length < room.maxPlayers) :
    ((pid, Bingo.OutMsg.roomJoined rid room.name room.gameType room.hostId
        ((Bingo.mapInsert room.players pid).length) room.calledNumbers room.gameActive)
      ∈ (Bingo.handleJoinRoom s pid rid).2) ∧
    (∀ m ∈ (Bingo.handleJoinRoom s pid rid).2, Bingo.isError m.2 = false) ∧
    (∀ room2 : Bingo.Room, Bingo.findRoom (Bingo.handleJoinRoom s pid rid).1 rid = some room2 →
      pid ∈ room2.players ∧ room2.players = Bingo.mapInsert room.players pid) ∧
    (∀ room3 : Bingo.Room, Bingo.findRoom (Bingo.handleJoinRoom s pid rid).1 old = some room3 →
      pid ∉ room3.players) ∧
    (∀ p2 : Bingo.Player, Bingo.findPlayer (Bingo.handleJoinRoom s pid rid).1 pid = some p2 →
      p2.roomId = some rid ∧ p2.isHost = false) := by
  have hcapb : ¬ room.players.length ≥ room.maxPlayers := not_le.mpr hcap
  have hneb : (old != rid) = true := bne_iff_ne.mpr hne
  refine ⟨?_, ?_, ?_, ?_, ?_⟩
  · simp [Bingo.handleJoinRoom, hp, hr, hcapb, hold, hneb]
  · intro m hm
    simp only [Bingo.handleJoinRoom, hp, hr, hold, hneb, if_true, if_neg hcapb] at hm
    rw [List.append_assoc] at hm
    rcases List.mem_append.mp hm with hm1 | hm2
    · exact Bingo.leave_no_error s pid old m hm1
    · rcases List.mem_append.mp hm2 with hm3 | hm4
      · rw [List.mem_singleton.mp hm3]
        rfl
      · rw [(Bingo.mem_broadcastToRoom _ _ _ _ m hm4).1]
        rfl
  · intro room2 h2
    simp only [Bingo.handleJoinRoom, hp, hr, hold, hneb, if_true, if_neg hcapb] at h2
    rw [Bingo.findRoom_updatePlayer,
      Bingo.findRoom_updateRoom_self _ _
        (fun r => { r with players := Bingo.mapInsert r.players pid }) (fun r => rfl),
      Bingo.findRoom_leave_other s pid old rid (Ne.symm hne), hr] at h2
    have : room2 = { room with players := Bingo.mapInsert room.players pid } :=
      (Option.some.inj h2).symm
    rw [this]
    exact ⟨Bingo.mem_mapInsert_self room.players pid, rfl⟩
  · intro room3 h3
    simp only [Bingo.handleJoinRoom, hp, hr, hold, hneb, if_true, if_neg hcapb] at h3
    rw [Bingo.findRoom_updatePlayer,
      Bingo.findRoom_updateRoom_other _ _ _
        (fun r => { r with players := Bingo.mapInsert r.players pid })
        (fun r => rfl) hne] at h3
    exact Bingo.leave_removes_pid s pid old room3 h3
  · intro p2 h5
    simp only [Bingo.handleJoinRoom, hp, hr, hold, hneb, if_true, if_neg hcapb] at h5
    rw [Bingo.findPlayer_updatePlayer_self _ _
        (fun p => { p with roomId := some rid, isHost := false }) (fun p => rfl),
      Bingo.findPlayer_updateRoom] at h5
    rcases Option.map_eq_some'.mp h5 with ⟨p1, -, hp1⟩
    rw [← hp1]
    exact ⟨rfl, rfl⟩

/-- C6 witness: the amended theorem applied to the concrete state with two
rooms, player 1 (in room 1) joining room 0. -/
theorem c6_witness :
    ((1, Bingo.OutMsg.roomJoined 0 "r0" "75ball" 0 2 [] false)
      ∈ (Bingo.handleJoinRoom Bingo.stateTwoRooms 1 0).2) ∧
    (∀ room2 : Bingo.Room,
      Bingo.findRoom (Bingo.handleJoinRoom Bingo.stateTwoRooms 1 0).1 0 = some room2 →
      1 ∈ room2.players) := by
  have h := c6_amended Bingo.stateTwoRooms 1 0 1
    { id := 1, name := "", phone := "", roomId := some 1, isHost := true,
      connected := true, wsOpen := true }
    { id := 0, name := "r0", hostId := 0, players := [0], gameType := "75ball",
      gameActive := false, calledNumbers := [], maxPlayers := 100 }
    (by decide) (by decide) (by decide) (by decide) (by decide)
  exact ⟨h.1, fun room2 h2 => (h.2.2.1 room2 h2).1⟩

/-- C7: in a well-formed state, a `startGame` from the current host of a room
sets `gameActive := true` and resets `calledNumbers` to `[]`, while a
`stopGame` sets `gameActive := false` and leaves `calledNumbers` untouched;
from a member that is not the host, both requests are answered with an error
reply and the state is completely unchanged. -/
theorem c7_start_stop_host_gated (s : Bingo.ServerState) (pid rid : Nat)
    (player : Bingo.Player) (room : Bingo.Room)
    (hWF : Bingo.WF s) (hp : Bingo.findPlayer s pid = some player)
    (hrid : player.roomId = some rid) (hr : Bingo.findRoom s rid = some room) :
    (room.hostId = pid →
      Bingo.findRoom (Bingo.handleStartGame s pid).1 rid
        = some { room with gameActive := true, calledNumbers := [] } ∧
      Bingo.findRoom (Bingo.handleStopGame s pid).1 rid
        = some { room with gameActive := false } ∧
      ({ room with gameActive := false } : Bingo.Room).calledNumbers
        = room.calledNumbers) ∧
    (room.hostId ≠ pid →
      Bingo.handleStartGame s pid
        = (s, [(pid, Bingo.OutMsg.errorMsg "Only host can start the game")]) ∧
      Bingo.handleStopGame s pid
        = (s, [(pid, Bingo.OutMsg.errorMsg "Only host can stop the game")])) := by
  constructor
  · intro hh
    have hihost : player.isHost = true :=
      (Bingo.WF_isHost_iff s pid rid player room hWF hp hrid hr).mpr hh
    have hb : ¬ (player.isHost = false) := by rw [hihost]; simp
    refine ⟨?_, ?_, rfl⟩
    · simp only [Bingo.handleStartGame, hp, hrid, hr, if_neg hb]
      rw [Bingo.findRoom_updateRoom_self _ _
          (fun r => { r with gameActive := true, calledNumbers := [] })
          (fun r => rfl), hr]
      rfl
    · simp only [Bingo.handleStopGame, hp, hrid, hr, if_neg hb]
      rw [Bingo.findRoom_updateRoom_self _ _
          (fun r => { r with gameActive := false }) (fun r => rfl), hr]
      rfl
  · intro hh
    have hihost : player.isHost = false := by
      cases hcase : player.isHost
      · rfl
      · exact absurd
          ((Bingo.WF_isHost_iff s pid rid player room hWF hp hrid hr).mp hcase) hh
    constructor
    · simp [Bingo.handleStartGame, hp, hrid, hr, hihost]
    · simp [Bingo.handleStopGame, hp, hrid, hr, hihost]

/-- C7 witness: in the concrete two-member room, the host's `startGame`
activates the game with cleared numbers and its `stopGame` deactivates it
keeping the history, while member 1's attempts are answered with errors. -/
theorem c7_witness :
    Bingo.findRoom (Bingo.handleStartGame Bingo.stateJoined 0).1 0
      = some { id := 0, name := "r0", hostId := 0, players := [0, 1],
               gameType := "75ball", gameActive := true, calledNumbers := [],
               maxPlayers := 100 } ∧
    Bingo.findRoom (Bingo.handleStopGame Bingo.stateJoined 0).1 0
      = some { id := 0, name := "r0", hostId := 0, players := [0, 1],
               gameType := "75ball", gameActive := false, calledNumbers := [],
               maxPlayers := 100 } ∧
    Bingo.handleStartGame Bingo.stateJoined 1
      = (Bingo.stateJoined,
         [(1, Bingo.OutMsg.errorMsg "Only host can start the game")]) := by
  have h0 := c7_start_stop_host_gated Bingo.stateJoined 0 0
    { id := 0, name := "", phone := "", roomId := some 0, isHost := true,
      connected := true, wsOpen := true }
    { id := 0, name := "r0", hostId := 0, players := [0, 1], gameType := "75ball",
      gameActive := false, calledNumbers := [], maxPlayers := 100 }
    (by decide) (by decide) (by decide) (by decide)
  have h1 := c7_start_stop_host_gated Bingo.stateJoined 1 0
    { id := 1, name := "", phone := "", roomId := some 0, isHost := false,
      connected := true, wsOpen := true }
    { id := 0, name := "r0", hostId := 0, players := [0, 1], gameType := "75ball",
      gameActive := false, calledNumbers := [], maxPlayers := 100 }
    (by decide) (by decide) (by decide) (by decide)
  exact ⟨(h0.1 rfl).1, (h0.1 rfl).2.1, (h1.2 (by decide)).1⟩

theorem listMapId {α : Type} (f : α → α) :
    ∀ (l : List α), (∀ a ∈ l, f a = a) → l.map f = l := by
  intro l
  induction l with
  | nil => intro _; rfl
  | cons a t ih =>
    intro h
    rw [List.map_cons, h a (List.mem_cons_self a t),
      ih (fun b hb => h b (List.mem_cons_of_mem a hb))]

theorem listMapCongr {α β : Type} (f g : α → β) :
    ∀ (l : List α), (∀ a ∈ l, f a = g a) → l.map f = l.map g := by
  intro l
  induction l with
  | nil => intro _; rfl
  | cons a t ih =>
    intro h
    rw [List.map_cons, List.map_cons, h a (List.mem_cons_self a t),
      ih (fun b hb => h b (List.mem_cons_of_mem a hb))]

namespace Bingo

theorem pids_updatePlayer (s : ServerState) (pid : Nat) (f : Player → Player)
    (hid : ∀ p, (f p).id = p.id) :
    (updatePlayer s pid f).players.map Player.id = s.players.map Player.id := by
  unfold updatePlayer
  rw [List.map_map]
  refine listMapCongr _ _ s.players (fun p _ => ?_)
  by_cases hc : p.id = pid <;> simp [hc, hid]

theorem rids_updateRoom (s : ServerState) (rid : Nat) (f : Room → Room)
    (hid : ∀ r, (f r).id = r.id) :
    (updateRoom s rid f).rooms.map Room.id = s.rooms.map Room.id := by
  unfold updateRoom
  rw [List.map_map]
  refine listMapCongr _ _ s.rooms (fun r _ => ?_)
  by_cases hc : r.id = rid <;> simp [hc, hid]

/-- C2, step 1: the well-formedness predicate implies the spec's host
invariant: every nonempty room's members carrying `isHost` are exactly the
one `hostId` member. -/
theorem WF_implies_HostOk (s : ServerState) (hWF : WF s) : HostOk s := by
  obtain ⟨hn1, hn2, h3, h4, h5, h6, h7, h8, h9, -⟩ := hWF
  intro r hr hne
  have hhostmem : r.hostId ∈ r.players := h7 r hr hne
  obtain ⟨p, hpmem, hpid⟩ := h4 r hr r.hostId hhostmem
  have hfind : findPlayer s r.hostId = some p := findPlayerOfMem s p r.hostId hn1 hpmem hpid
  have hproom : p.roomId = some r.id := h5 r hr r.hostId hhostmem p hpmem hpid
  have hphost : p.isHost = true := h9 r hr p hpmem hproom hpid.symm
  have hhostflag : isHostOf s r.hostId = true := by
    unfold isHostOf
    rw [hfind]
    exact hphost
  have hall : ∀ x ∈ r.players.filter (fun q => isHostOf s q), x = r.hostId := by
    intro x hx
    obtain ⟨hxmem, hxflag⟩ := List.mem_filter.mp hx
    obtain ⟨px, hpxmem, hpxid⟩ := h4 r hr x hxmem
    have hfx : findPlayer s x = some px := findPlayerOfMem s px x hn1 hpxmem hpxid
    have hpxhost : px.isHost = true := by
      unfold isHostOf at hxflag
      rw [hfx] at hxflag
      exact hxflag
    obtain ⟨r2, hr2mem, hr2room, hr2host⟩ := h8 px hpxmem hpxhost
    have hpxroom : px.roomId = some r.id := h5 r hr x hxmem px hpxmem hpxid
    have hr2id : r2.id = r.id := by
      rw [hr2room] at hpxroom
      exact Option.some.inj hpxroom
    have hr2eq : r2 = r := listNodupMapEq Room.id hn2 hr2mem hr hr2id
    rw [← hr2eq, hr2host]
    exact hpxid.symm
  have hin : r.hostId ∈ r.players.filter (fun q => isHostOf s q) :=
    List.mem_filter.mpr ⟨hhostmem, hhostflag⟩
  exact listNodupAllEqSingleton (List.Nodup.filter _ (h3 r hr)) hin hall

end Bingo

namespace Bingo

/-- C2 machinery: well-formedness survives the leave branch that deletes the
room, provided no registered player other than the leaver points at the room
and the leaver is in no other room. -/
theorem WF_leave_empty (s : ServerState) (pid rid : Nat) (player : Player)
    (hWF : WF s) (hp : findPlayer s pid = some player)
    (hnomem : ∀ r2 ∈ s.rooms, r2.id ≠ rid → pid ∉ r2.players)
    (hnoptr : ∀ p ∈ s.players, p.id ≠ pid → p.roomId ≠ some rid) :
    WF (removeRoom (updatePlayer s pid
      (fun p => { p with roomId := none, isHost := false })) rid) := by
  obtain ⟨hn1, hn2, h3, h4, h5, h6, h7, h8, h9, h10⟩ := hWF
  obtain ⟨hpmem, hpid⟩ := findPlayer_mem s pid player hp
  have hgmem : ∀ p' ∈ (removeRoom (updatePlayer s pid
      (fun p => { p with roomId := none, isHost := false })) rid).players,
      ∃ p ∈ s.players,
        (if p.id == pid then { p with roomId := none, isHost := false } else p) = p' :=
    fun p' h => List.mem_map.mp h
  have hgin : ∀ p ∈ s.players,
      (if p.id == pid then { p with roomId := none, isHost := false } else p)
        ∈ (removeRoom (updatePlayer s pid
            (fun p => { p with roomId := none, isHost := false })) rid).players :=
    fun p h => List.mem_map_of_mem _ h
  have hrmem : ∀ r ∈ (removeRoom (updatePlayer s pid
      (fun p => { p with roomId := none, isHost := false })) rid).rooms,
      r ∈ s.rooms ∧ r.id ≠ rid := by
    intro r h
    have m := List.mem_filter.mp h
    exact ⟨m.1, bne_iff_ne.mp m.2⟩
  have hrin : ∀ r ∈ s.rooms, r.id ≠ rid →
      r ∈ (removeRoom (updatePlayer s pid
        (fun p => { p with roomId := none, isHost := false })) rid).rooms :=
    fun r h hne => List.mem_filter.mpr ⟨h, bne_iff_ne.mpr hne⟩
  unfold WF
  refine ⟨?_, ?_, ?_, ?_, ?_, ?_, ?_, ?_, ?_, ?_⟩
  · show (((updatePlayer s pid
      (fun p => { p with roomId := none, isHost := false })).players).map Player.id).Nodup
    rw [pids_updatePlayer s pid
      (fun p => { p with roomId := none, isHost := false }) (fun p => rfl)]
    exact hn1
  · show ((s.rooms.filter (fun r => r.id != rid)).map Room.id).Nodup
    exact List.Nodup.sublist (List.Sublist.map Room.id (List.filter_sublist s.rooms)) hn2
  · intro r hr
    exact h3 r (hrmem r hr).1
  · intro r hr q hq
    obtain ⟨p, hm, hpe⟩ := h4 r (hrmem r hr).1 q hq
    refine ⟨(if p.id == pid then { p with roomId := none, isHost := false } else p),
      hgin p hm, ?_⟩
    by_cases hc : p.id = pid
    · rw [if_pos (beq_iff_eq.mpr hc)]
      exact hpe
    · rw [if_neg (by simp [hc])]
      exact hpe
  · intro r hr q hq p' hp' hpe'
    obtain ⟨hrold, hrne⟩ := hrmem r hr
    obtain ⟨p, hm, hpe⟩ := hgmem p' hp'
    by_cases hc : p.id = pid
    · exfalso
      have hq2 : q = pid := by
        have : p'.id = p.id := by rw [← hpe]; by_cases hcc : p.id = pid <;> simp [hcc]
        rw [← hpe', this, hc]
      exact hnomem r hrold hrne (hq2 ▸ hq)
    · have hpe2 : p = p' := by rw [← hpe]; simp [hc]
      subst hpe2
      exact h5 r hrold q hq p hm hpe'
  · intro p' hp' rid2 hrid2
    obtain ⟨p, hm, hpe⟩ := hgmem p' hp'
    by_cases hc : p.id = pid
    · have : p'.roomId = none := by rw [← hpe]; simp [hc]
      rw [this] at hrid2
      cases hrid2
    · have hpe2 : p = p' := by rw [← hpe]; simp [hc]
      subst hpe2
      obtain ⟨r2, hr2m, hr2id, hr2mem⟩ := h6 p hm rid2 hrid2
      have hne2 : rid2 ≠ rid := by
        intro he
        exact hnoptr p hm hc (by rw [hrid2, he])
      exact ⟨r2, hrin r2 hr2m (by rw [hr2id]; exact hne2), hr2id, hr2mem⟩
  · intro r hr hne
    exact h7 r (hrmem r hr).1 hne
  · intro p' hp' hflag
    obtain ⟨p, hm, hpe⟩ := hgmem p' hp'
    by_cases hc : p.id = pid
    · have : p'.isHost = false := by rw [← hpe]; simp [hc]
      rw [this] at hflag
      cases hflag
    · have hpe2 : p = p' := by rw [← hpe]; simp [hc]
      subst hpe2
      obtain ⟨r2, hr2m, hr2rid, hr2host⟩ := h8 p hm hflag
      have hne2 : r2.id ≠ rid := by
        intro he
        exact hnoptr p hm hc (by rw [hr2rid, he])
      exact ⟨r2, hrin r2 hr2m hne2, hr2rid, hr2host⟩
  · intro r hr p' hp' hrid2 hhost2
    obtain ⟨hrold, hrne⟩ := hrmem r hr
    obtain ⟨p, hm, hpe⟩ := hgmem p' hp'
    by_cases hc : p.id = pid
    · have : p'.roomId = none := by rw [← hpe]; simp [hc]
      rw [this] at hrid2
      cases hrid2
    · have hpe2 : p = p' := by rw [← hpe]; simp [hc]
      subst hpe2
      exact h9 r hrold p hm hrid2 hhost2
  · intro r hr
    exact h10 r (hrmem r hr).1

end Bingo

namespace Bingo

/-- C2 machinery: well-formedness survives a non-host member leaving a room
that keeps members `h :: t`. -/
theorem WF_leave_nonhost (s : ServerState) (pid rid : Nat) (player : Player)
    (room : Room) (h : Nat) (t : List Nat)
    (hWF : WF s) (hp : findPlayer s pid = some player)
    (hr : findRoom s rid = some room)
    (hrem : room.players.filter (fun q => q != pid) = h :: t)
    (hhostne : room.hostId ≠ pid)
    (hnomem : ∀ r2 ∈ s.rooms, r2.id ≠ rid → pid ∉ r2.players) :
    WF (updateRoom (updatePlayer s pid
        (fun p => { p with roomId := none, isHost := false })) rid
      (fun r => { r with players := h :: t })) := by
  obtain ⟨hn1, hn2, h3, h4, h5, h6, h7, h8, h9, h10⟩ := hWF
  obtain ⟨hpmem, hpid⟩ := findPlayer_mem s pid player hp
  obtain ⟨hroommem, hroomid⟩ := findRoom_mem s rid room hr
  have hgmem : ∀ p' ∈ (updateRoom (updatePlayer s pid
      (fun p => { p with roomId := none, isHost := false })) rid
      (fun r => { r with players := h :: t })).players,
      ∃ p ∈ s.players,
        (if p.id == pid then { p with roomId := none, isHost := false } else p) = p' :=
    fun p' hm => List.mem_map.mp hm
  have hgin : ∀ p ∈ s.players,
      (if p.id == pid then { p with roomId := none, isHost := false } else p)
        ∈ (updateRoom (updatePlayer s pid
            (fun p => { p with roomId := none, isHost := false })) rid
            (fun r => { r with players := h :: t })).players :=
    fun p hm => List.mem_map_of_mem _ hm
  have hrmem : ∀ r' ∈ (updateRoom (updatePlayer s pid
      (fun p => { p with roomId := none, isHost := false })) rid
      (fun r => { r with players := h :: t })).rooms,
      ∃ rold ∈ s.rooms,
        (if rold.id == rid then { rold with players := h :: t } else rold) = r' :=
    fun r' hm => List.mem_map.mp hm
  have hrin : ∀ rold ∈ s.rooms,
      (if rold.id == rid then { rold with players := h :: t } else rold)
        ∈ (updateRoom (updatePlayer s pid
            (fun p => { p with roomId := none, isHost := false })) rid
            (fun r => { r with players := h :: t })).rooms :=
    fun rold hm => List.mem_map_of_mem _ hm
  have hruniq : ∀ rold ∈ s.rooms, rold.id = rid → rold = room := fun rold hm he =>
    listNodupMapEq Room.id hn2 hm hroommem (he.trans hroomid.symm)
  have hsubne : ∀ q ∈ h :: t, q ≠ pid := by
    intro q hq
    have hmem : q ∈ room.players.filter (fun x => x != pid) := hrem ▸ hq
    exact bne_iff_ne.mp (List.mem_filter.mp hmem).2
  have hsubmem : ∀ q ∈ h :: t, q ∈ room.players := by
    intro q hq
    have hmem : q ∈ room.players.filter (fun x => x != pid) := hrem ▸ hq
    exact (List.mem_filter.mp hmem).1
  have hreg : ∀ q : Nat, (∃ p ∈ s.players, p.id = q) →
      ∃ p' ∈ (updateRoom (updatePlayer s pid
        (fun p => { p with roomId := none, isHost := false })) rid
        (fun r => { r with players := h :: t })).players, p'.id = q := by
    rintro q ⟨p, hm, he⟩
    refine ⟨(if p.id == pid then { p with roomId := none, isHost := false } else p),
      hgin p hm, ?_⟩
    by_cases hc : p.id = pid
    · rw [if_pos (beq_iff_eq.mpr hc)]
      exact he
    · rw [if_neg (by simp [hc])]
      exact he
  unfold WF
  refine ⟨?_, ?_, ?_, ?_, ?_, ?_, ?_, ?_, ?_, ?_⟩
  · show (((updatePlayer s pid
      (fun p => { p with roomId := none, isHost := false })).players).map Player.id).Nodup
    rw [pids_updatePlayer s pid
      (fun p => { p with roomId := none, isHost := false }) (fun p => rfl)]
    exact hn1
  · rw [rids_updateRoom (updatePlayer s pid
      (fun p => { p with roomId := none, isHost := false })) rid
      (fun r => { r with players := h :: t }) (fun r => rfl)]
    exact hn2
  · intro r' hr'
    obtain ⟨rold, hm, hre⟩ := hrmem r' hr'
    by_cases hc : rold.id = rid
    · rw [if_pos (beq_iff_eq.mpr hc)] at hre
      rw [← hre]
      show (h :: t).Nodup
      rw [← hrem]
      exact List.Nodup.filter _ (h3 room hroommem)
    · rw [if_neg (by simp [hc])] at hre
      rw [← hre]
      exact h3 rold hm
  · intro r' hr' q hq
    obtain ⟨rold, hm, hre⟩ := hrmem r' hr'
    by_cases hc : rold.id = rid
    · rw [if_pos (beq_iff_eq.mpr hc)] at hre
      rw [← hre] at hq
      exact hreg q (h4 room hroommem q (hsubmem q hq))
    · rw [if_neg (by simp [hc])] at hre
      rw [← hre] at hq
      exact hreg q (h4 rold hm q hq)
  · intro r' hr' q hq p' hp' hpe'
    obtain ⟨rold, hm, hre⟩ := hrmem r' hr'
    obtain ⟨p, hpm, hpe⟩ := hgmem p' hp'
    by_cases hc : rold.id = rid
    · have hroe : rold = room := hruniq rold hm hc
      subst hroe
      rw [if_pos (beq_iff_eq.mpr hc)] at hre
      rw [← hre] at hq
      have hqne : q ≠ pid := hsubne q hq
      by_cases hcp : p.id = pid
      · exfalso
        have : p'.id = p.id := by
          rw [← hpe, if_pos (beq_iff_eq.mpr hcp)]
        exact hqne (by rw [← hpe', this, hcp])
      · rw [if_neg (by simp [hcp])] at hpe
        subst hpe
        have := h5 rold hm q (hsubmem q hq) p hpm hpe'
        rw [← hre]
        exact this
    · rw [if_neg (by simp [hc])] at hre
      subst hre
      by_cases hcp : p.id = pid
      · exfalso
        have hidp : p'.id = p.id := by
          rw [← hpe, if_pos (beq_iff_eq.mpr hcp)]
        have hq2 : q = pid := by rw [← hpe', hidp, hcp]
        exact hnomem rold hm hc (hq2 ▸ hq)
      · rw [if_neg (by simp [hcp])] at hpe
        subst hpe
        exact h5 rold hm q hq p hpm hpe'
  · intro p' hp' rid2 hrid2
    obtain ⟨p, hpm, hpe⟩ := hgmem p' hp'
    by_cases hcp : p.id = pid
    · have : p'.roomId = none := by
        rw [← hpe, if_pos (beq_iff_eq.mpr hcp)]
      rw [this] at hrid2
      cases hrid2
    · rw [if_neg (by simp [hcp])] at hpe
      subst hpe
      obtain ⟨r2, hr2m, hr2id, hr2mem⟩ := h6 p hpm rid2 hrid2
      refine ⟨(if r2.id == rid then { r2 with players := h :: t } else r2),
        hrin r2 hr2m, ?_, ?_⟩
      · by_cases hc2 : r2.id = rid
        · rw [if_pos (beq_iff_eq.mpr hc2)]
          exact hr2id
        · rw [if_neg (by simp [hc2])]
          exact hr2id
      · by_cases hc2 : r2.id = rid
        · have hre2 : r2 = room := hruniq r2 hr2m hc2
          rw [if_pos (beq_iff_eq.mpr hc2)]
          show p.id ∈ h :: t
          rw [← hrem]
          refine List.mem_filter.mpr ⟨hre2 ▸ hr2mem, bne_iff_ne.mpr hcp⟩
        · rw [if_neg (by simp [hc2])]
          exact hr2mem
  · intro r' hr' hne
    obtain ⟨rold, hm, hre⟩ := hrmem r' hr'
    by_cases hc : rold.id = rid
    · have hroe : rold = room := hruniq rold hm hc
      subst hroe
      rw [if_pos (beq_iff_eq.mpr hc)] at hre
      rw [← hre]
      show rold.hostId ∈ h :: t
      rw [← hrem]
      refine List.mem_filter.mpr ⟨?_, bne_iff_ne.mpr hhostne⟩
      exact h7 rold hm (h10 rold hm)
    · rw [if_neg (by simp [hc])] at hre
      rw [← hre]
      rw [← hre] at hne
      exact h7 rold hm hne
  · intro p' hp' hflag
    obtain ⟨p, hpm, hpe⟩ := hgmem p' hp'
    by_cases hcp : p.id = pid
    · have : p'.isHost = false := by
        rw [← hpe, if_pos (beq_iff_eq.mpr hcp)]
      rw [this] at hflag
      cases hflag
    · rw [if_neg (by simp [hcp])] at hpe
      subst hpe
      obtain ⟨r2, hr2m, hr2rid, hr2host⟩ := h8 p hpm hflag
      refine ⟨(if r2.id == rid then { r2 with players := h :: t } else r2),
        hrin r2 hr2m, ?_, ?_⟩
      · by_cases hc2 : r2.id = rid
        · rw [if_pos (beq_iff_eq.mpr hc2)]
          exact hr2rid
        · rw [if_neg (by simp [hc2])]
          exact hr2rid
      · by_cases hc2 : r2.id = rid
        · rw [if_pos (beq_iff_eq.mpr hc2)]
          exact hr2host
        · rw [if_neg (by simp [hc2])]
          exact hr2host
  · intro r' hr' p' hp' hrid2 hhost2
    obtain ⟨rold, hm, hre⟩ := hrmem r' hr'
    obtain ⟨p, hpm, hpe⟩ := hgmem p' hp'
    by_cases hcp : p.id = pid
    · have : p'.roomId = none := by
        rw [← hpe, if_pos (beq_iff_eq.mpr hcp)]
      rw [this] at hrid2
      cases hrid2
    · rw [if_neg (by simp [hcp])] at hpe
      subst hpe
      by_cases hc : rold.id = rid
      · rw [if_pos (beq_iff_eq.mpr hc)] at hre
        rw [← hre] at hrid2 hhost2
        exact h9 rold hm p hpm hrid2 hhost2
      · rw [if_neg (by simp [hc])] at hre
        subst hre
        exact h9 rold hm p hpm hrid2 hhost2
  · intro r' hr'
    obtain ⟨rold, hm, hre⟩ := hrmem r' hr'
    by_cases hc : rold.id = rid
    · rw [if_pos (beq_iff_eq.mpr hc)] at hre
      rw [← hre]
      simp
    · rw [if_neg (by simp [hc])] at hre
      rw [← hre]
      exact h10 rold hm

end Bingo

namespace Bingo

/-- C2 machinery: well-formedness survives the host leaving a room that keeps
members `h :: t`: the first remaining member `h` is promoted to host. -/
theorem WF_leave_host (s : ServerState) (pid rid : Nat) (player ph : Player)
    (room : Room) (h : Nat) (t : List Nat)
    (hWF : WF s) (hp : findPlayer s pid = some player)
    (hr : findRoom s rid = some room)
    (hridp : player.roomId = some rid)
    (hhost : room.hostId = pid)
    (hrem : room.players.filter (fun q => q != pid) = h :: t)
    (hph : findPlayer s h = some ph) :
    WF (leaveHostState s pid rid h t) := by
  obtain ⟨hn1, hn2, h3, h4, h5, h6, h7, h8, h9, h10⟩ := hWF
  obtain ⟨hpmem, hpid⟩ := findPlayer_mem s pid player hp
  obtain ⟨hphmem, hphid⟩ := findPlayer_mem s h ph hph
  obtain ⟨hroommem, hroomid⟩ := findRoom_mem s rid room hr
  have hsubne : ∀ q ∈ h :: t, q ≠ pid := by
    intro q hq
    have hmem : q ∈ room.players.filter (fun x => x != pid) := hrem ▸ hq
    exact bne_iff_ne.mp (List.mem_filter.mp hmem).2
  have hsubmem : ∀ q ∈ h :: t, q ∈ room.players := by
    intro q hq
    have hmem : q ∈ room.players.filter (fun x => x != pid) := hrem ▸ hq
    exact (List.mem_filter.mp hmem).1
  have hneHP : h ≠ pid := hsubne h (List.mem_cons_self h t)
  have huniqP : ∀ p ∈ s.players, p.id = pid → p = player := fun p hm he =>
    listNodupMapEq Player.id hn1 hm hpmem (he.trans hpid.symm)
  have huniqH : ∀ p ∈ s.players, p.id = h → p = ph := fun p hm he =>
    listNodupMapEq Player.id hn1 hm hphmem (he.trans hphid.symm)
  have hruniq : ∀ rold ∈ s.rooms, rold.id = rid → rold = room := fun rold hm he =>
    listNodupMapEq Room.id hn2 hm hroommem (he.trans hroomid.symm)
  have hphroom : ph.roomId = some rid := by
    have := h5 room hroommem h (hsubmem h (List.mem_cons_self h t)) ph hphmem hphid
    rw [this, hroomid]
  unfold leaveHostState
  have hgmem : ∀ p' ∈ (updatePlayer
      (updateRoom
        (updatePlayer s pid (fun p => { p with roomId := none, isHost := false }))
        rid (fun r => { r with players := h :: t, hostId := h }))
      h (fun p => { p with isHost := true })).players,
      ∃ p ∈ s.players, ∃ p1 : Player,
        (if p.id == pid then { p with roomId := none, isHost := false } else p) = p1 ∧
        (if p1.id == h then { p1 with isHost := true } else p1) = p' := by
    intro p' hm
    obtain ⟨p1, hp1, he1⟩ := List.mem_map.mp hm
    obtain ⟨p, hpm, he2⟩ := List.mem_map.mp hp1
    exact ⟨p, hpm, p1, he2, he1⟩
  have hgin : ∀ p ∈ s.players, ∀ p1 : Player,
      (if p.id == pid then { p with roomId := none, isHost := false } else p) = p1 →
      (if p1.id == h then { p1 with isHost := true } else p1)
        ∈ (updatePlayer
            (updateRoom
              (updatePlayer s pid (fun p => { p with roomId := none, isHost := false }))
              rid (fun r => { r with players := h :: t, hostId := h }))
            h (fun p => { p with isHost := true })).players := by
    intro p hm p1 he
    have h1 : p1 ∈ (updatePlayer s pid
        (fun p => { p with roomId := none, isHost := false })).players := by
      rw [← he]
      exact List.mem_map_of_mem _ hm
    exact List.mem_map_of_mem _ h1
  have hrmem : ∀ r' ∈ (updatePlayer
      (updateRoom
        (updatePlayer s pid (fun p => { p with roomId := none, isHost := false }))
        rid (fun r => { r with players := h :: t, hostId := h }))
      h (fun p => { p with isHost := true })).rooms,
      ∃ rold ∈ s.rooms,
        (if rold.id == rid then { rold with players := h :: t, hostId := h } else rold)
          = r' :=
    fun r' hm => List.mem_map.mp hm
  have hrin : ∀ rold ∈ s.rooms,
      (if rold.id == rid then { rold with players := h :: t, hostId := h } else rold)
        ∈ (updatePlayer
            (updateRoom
              (updatePlayer s pid (fun p => { p with roomId := none, isHost := false }))
              rid (fun r => { r with players := h :: t, hostId := h }))
            h (fun p => { p with isHost := true })).rooms :=
    fun rold hm => List.mem_map_of_mem _ hm
  unfold WF
  refine ⟨?_, ?_, ?_, ?_, ?_, ?_, ?_, ?_, ?_, ?_⟩
  · rw [pids_updatePlayer
      (updateRoom
        (updatePlayer s pid (fun p => { p with roomId := none, isHost := false }))
        rid (fun r => { r with players := h :: t, hostId := h }))
      h (fun p => { p with isHost := true }) (fun p => rfl)]
    show (((updatePlayer s pid
      (fun p => { p with roomId := none, isHost := false })).players).map Player.id).Nodup
    rw [pids_updatePlayer s pid
      (fun p => { p with roomId := none, isHost := false }) (fun p => rfl)]
    exact hn1
  · show (((updateRoom
      (updatePlayer s pid (fun p => { p with roomId := none, isHost := false }))
      rid (fun r => { r with players := h :: t, hostId := h })).rooms).map Room.id).Nodup
    rw [rids_updateRoom
      (updatePlayer s pid (fun p => { p with roomId := none, isHost := false }))
      rid (fun r => { r with players := h :: t, hostId := h }) (fun r => rfl)]
    exact hn2
  · intro r' hr'
    obtain ⟨rold, hm, hre⟩ := hrmem r' hr'
    by_cases hc : rold.id = rid
    · rw [if_pos (beq_iff_eq.mpr hc)] at hre
      rw [← hre]
      show (h :: t).Nodup
      rw [← hrem]
      exact List.Nodup.filter _ (h3 room hroommem)
    · rw [if_neg (by simp [hc])] at hre
      rw [← hre]
      exact h3 rold hm
  · intro r' hr' q hq
    obtain ⟨rold, hm, hre⟩ := hrmem r' hr'
    have hbase : ∃ p ∈ s.players, p.id = q := by
      by_cases hc : rold.id = rid
      · rw [if_pos (beq_iff_eq.mpr hc)] at hre
        rw [← hre] at hq
        exact h4 room hroommem q (hsubmem q hq)
      · rw [if_neg (by simp [hc])] at hre
        rw [← hre] at hq
        exact h4 rold hm q hq
    obtain ⟨p, hpm, hpe⟩ := hbase
    refine ⟨(if ((if p.id == pid then { p with roomId := none, isHost := false } else p)).id == h
        then { ((if p.id == pid then { p with roomId := none, isHost := false } else p)) with isHost := true }
        else ((if p.id == pid then { p with roomId := none, isHost := false } else p))),
      hgin p hpm _ rfl, ?_⟩
    have hgoal : ∀ p1 : Player, p1.id = p.id →
        (if p1.id == h then { p1 with isHost := true } else p1).id = q := by
      intro p1 he
      by_cases hch : p1.id = h
      · rw [if_pos (beq_iff_eq.mpr hch)]
        show p1.id = q
        rw [he, hpe]
      · rw [if_neg (by simp [hch])]
        rw [he, hpe]
    by_cases hcp : p.id = pid
    · rw [if_pos (beq_iff_eq.mpr hcp)]
      exact hgoal { p with roomId := none, isHost := false } rfl
    · have hbneg : ¬((p.id == pid) = true) := by simp [hcp]
      rw [if_neg hbneg]
      exact hgoal p rfl
  · intro r' hr' q hq p' hp' hpe'
    obtain ⟨rold, hm, hre⟩ := hrmem r' hr'
    obtain ⟨p, hpm, p1, he2, he1⟩ := hgmem p' hp'
    by_cases hcp : p.id = pid
    · exfalso
      rw [if_pos (beq_iff_eq.mpr hcp)] at he2
      rw [← he2] at he1
      rw [if_neg (by simp [hcp, Ne.symm hneHP])] at he1
      have hidq : p'.id = p.id := by rw [← he1]
      have hq2 : q = pid := by rw [← hpe', hidq, hcp]
      subst hq2
      by_cases hc : rold.id = rid
      · rw [if_pos (beq_iff_eq.mpr hc)] at hre
        rw [← hre] at hq
        exact hsubne q hq rfl
      · rw [if_neg (by simp [hc])] at hre
        rw [← hre] at hq
        have := h5 rold hm q hq player hpmem hpid
        rw [hridp] at this
        exact hc (Option.some.inj this).symm
    · rw [if_neg (by simp [hcp])] at he2
      subst he2
      have hroomeq : p'.roomId = p.roomId := by
        by_cases hch : p.id = h
        · rw [← he1, if_pos (beq_iff_eq.mpr hch)]
        · rw [← he1, if_neg (by simp [hch])]
      have hidq : p'.id = p.id := by
        by_cases hch : p.id = h
        · rw [← he1, if_pos (beq_iff_eq.mpr hch)]
        · rw [← he1, if_neg (by simp [hch])]
      rw [hroomeq]
      have hpidq : p.id = q := by rw [← hidq, hpe']
      by_cases hc : rold.id = rid
      · have hroe : rold = room := hruniq rold hm hc
        rw [hroe] at hre
        rw [if_pos (beq_iff_eq.mpr hroomid)] at hre
        rw [← hre] at hq
        have := h5 room hroommem q (hsubmem q hq) p hpm hpidq
        rw [this, ← hre]
      · rw [if_neg (by simp [hc])] at hre
        rw [← hre] at hq
        rw [← hre]
        exact h5 rold hm q hq p hpm hpidq
  · intro p' hp' rid2 hrid2
    obtain ⟨p, hpm, p1, he2, he1⟩ := hgmem p' hp'
    by_cases hcp : p.id = pid
    · rw [if_pos (beq_iff_eq.mpr hcp)] at he2
      rw [← he2] at he1
      rw [if_neg (by simp [hcp, Ne.symm hneHP])] at he1
      have : p'.roomId = none := by rw [← he1]
      rw [this] at hrid2
      cases hrid2
    · rw [if_neg (by simp [hcp])] at he2
      subst he2
      have hroomeq : p'.roomId = p.roomId := by
        by_cases hch : p.id = h
        · rw [← he1, if_pos (beq_iff_eq.mpr hch)]
        · rw [← he1, if_neg (by simp [hch])]
      have hidq : p'.id = p.id := by
        by_cases hch : p.id = h
        · rw [← he1, if_pos (beq_iff_eq.mpr hch)]
        · rw [← he1, if_neg (by simp [hch])]
      rw [hroomeq] at hrid2
      obtain ⟨r2, hr2m, hr2id, hr2mem⟩ := h6 p hpm rid2 hrid2
      refine ⟨(if r2.id == rid then { r2 with players := h :: t, hostId := h } else r2),
        hrin r2 hr2m, ?_, ?_⟩
      · by_cases hc2 : r2.id = rid
        · rw [if_pos (beq_iff_eq.mpr hc2)]
          exact hr2id
        · rw [if_neg (by simp [hc2])]
          exact hr2id
      · rw [hidq]
        by_cases hc2 : r2.id = rid
        · have hre2 : r2 = room := hruniq r2 hr2m hc2
          rw [if_pos (beq_iff_eq.mpr hc2)]
          show p.id ∈ h :: t
          rw [← hrem]
          exact List.mem_filter.mpr ⟨hre2 ▸ hr2mem, bne_iff_ne.mpr hcp⟩
        · rw [if_neg (by simp [hc2])]
          exact hr2mem
  · intro r' hr' hne
    obtain ⟨rold, hm, hre⟩ := hrmem r' hr'
    by_cases hc : rold.id = rid
    · rw [if_pos (beq_iff_eq.mpr hc)] at hre
      rw [← hre]
      show h ∈ h :: t
      exact List.mem_cons_self h t
    · rw [if_neg (by simp [hc])] at hre
      rw [← hre]
      rw [← hre] at hne
      exact h7 rold hm hne
  · intro p' hp' hflag
    obtain ⟨p, hpm, p1, he2, he1⟩ := hgmem p' hp'
    by_cases hcp : p.id = pid
    · exfalso
      rw [if_pos (beq_iff_eq.mpr hcp)] at he2
      rw [← he2] at he1
      rw [if_neg (by simp [hcp, Ne.symm hneHP])] at he1
      have : p'.isHost = false := by rw [← he1]
      rw [this] at hflag
      cases hflag
    · rw [if_neg (by simp [hcp])] at he2
      subst he2
      by_cases hch : p.id = h
      · rw [if_pos (beq_iff_eq.mpr hch)] at he1
        have hpph : p = ph := huniqH p hpm hch
        refine ⟨{ room with players := h :: t, hostId := h },
          ?_, ?_, ?_⟩
        · have := hrin room hroommem
          rw [if_pos (beq_iff_eq.mpr hroomid)] at this
          exact this
        · have : p'.roomId = p.roomId := by rw [← he1]
          rw [this, hpph, hphroom]
          show some rid = some room.id
          rw [hroomid]
        · have : p'.id = p.id := by rw [← he1]
          rw [this, hch]
      · rw [if_neg (by simp [hch])] at he1
        subst he1
        obtain ⟨r2, hr2m, hr2rid, hr2host⟩ := h8 p hpm hflag
        have hc2 : r2.id ≠ rid := by
          intro he
          have hre2 : r2 = room := hruniq r2 hr2m he
          rw [hre2, hhost] at hr2host
          exact hcp hr2host.symm
        refine ⟨r2, ?_, hr2rid, hr2host⟩
        have := hrin r2 hr2m
        rw [if_neg (by simp [hc2])] at this
        exact this
  · intro r' hr' p' hp' hrid2 hhost2
    obtain ⟨rold, hm, hre⟩ := hrmem r' hr'
    obtain ⟨p, hpm, p1, he2, he1⟩ := hgmem p' hp'
    by_cases hcp : p.id = pid
    · rw [if_pos (beq_iff_eq.mpr hcp)] at he2
      rw [← he2] at he1
      rw [if_neg (by simp [hcp, Ne.symm hneHP])] at he1
      have : p'.roomId = none := by rw [← he1]
      rw [this] at hrid2
      cases hrid2
    · rw [if_neg (by simp [hcp])] at he2
      subst he2
      by_cases hch : p.id = h
      · rw [if_pos (beq_iff_eq.mpr hch)] at he1
        have : p'.isHost = true := by rw [← he1]
        exact this
      · rw [if_neg (by simp [hch])] at he1
        subst he1
        by_cases hc : rold.id = rid
        · exfalso
          rw [if_pos (beq_iff_eq.mpr hc)] at hre
          rw [← hre] at hhost2
          exact hch hhost2.symm
        · rw [if_neg (by simp [hc])] at hre
          rw [← hre] at hrid2 hhost2
          exact h9 rold hm p hpm hrid2 hhost2
  · intro r' hr'
    obtain ⟨rold, hm, hre⟩ := hrmem r' hr'
    by_cases hc : rold.id = rid
    · rw [if_pos (beq_iff_eq.mpr hc)] at hre
      rw [← hre]
      simp
    · rw [if_neg (by simp [hc])] at hre
      rw [← hre]
      exact h10 rold hm

end Bingo

namespace Bingo

/-- C2 machinery: `handleLeaveRoom` preserves well-formedness whenever the
room named in the message is the caller's current room (or the caller is in
no room at all). -/
theorem WF_leaveRoom (s : ServerState) (pid rid : Nat) (player : Player)
    (hWF : WF s) (hp : findPlayer s pid = some player)
    (hcase : player.roomId = some rid ∨ player.roomId = none) :
    WF (handleLeaveRoom s pid rid).1 := by
  obtain ⟨hn1, hn2, h3, h4, h5, h6, h7, h8, h9, h10⟩ := id hWF
  obtain ⟨hpmem, hpid⟩ := findPlayer_mem s pid player hp
  cases hr : findRoom s rid with
  | none =>
    simp only [handleLeaveRoom, hr]
    exact hWF
  | some room =>
    obtain ⟨hroommem, hroomid⟩ := findRoom_mem s rid room hr
    have hnomem : ∀ r2 ∈ s.rooms, r2.id ≠ rid → pid ∉ r2.players := by
      intro r2 hm hne hmem
      have hthis := h5 r2 hm pid hmem player hpmem hpid
      cases hcase with
      | inl hA =>
        rw [hA] at hthis
        exact hne (Option.some.inj hthis).symm
      | inr hN =>
        rw [hN] at hthis
        cases hthis
    cases hrem : room.players.filter (fun q => q != pid) with
    | nil =>
      have hsub : ∀ q ∈ room.players, q = pid := by
        intro q hq
        by_contra hne
        have hmem2 : q ∈ room.players.filter (fun x => x != pid) :=
          List.mem_filter.mpr ⟨hq, bne_iff_ne.mpr hne⟩
        rw [hrem] at hmem2
        exact absurd hmem2 (List.not_mem_nil q)
      have hnoptr : ∀ p ∈ s.players, p.id ≠ pid → p.roomId ≠ some rid := by
        intro p hm hne hcontra
        obtain ⟨r2, hr2m, hr2id, hr2mem⟩ := h6 p hm rid hcontra
        have hre : r2 = room :=
          listNodupMapEq Room.id hn2 hr2m hroommem (hr2id.trans hroomid.symm)
        rw [hre] at hr2mem
        exact hne (hsub p.id hr2mem)
      simp only [handleLeaveRoom, hr, hrem]
      exact WF_leave_empty s pid rid player hWF hp hnomem hnoptr
    | cons h t =>
      by_cases hh : room.hostId = pid
      · have hridp : player.roomId = some rid := by
          cases hcase with
          | inl hA => exact hA
          | inr hN =>
            exfalso
            have hmemh : pid ∈ room.players := by
              rw [← hh]
              exact h7 room hroommem (h10 room hroommem)
            have hthis := h5 room hroommem pid hmemh player hpmem hpid
            rw [hN] at hthis
            cases hthis
        have hhmem : h ∈ room.players := by
          have hmem : h ∈ room.players.filter (fun x => x != pid) :=
            hrem ▸ List.mem_cons_self h t
          exact (List.mem_filter.mp hmem).1
        obtain ⟨ph0, hph0m, hph0id⟩ := h4 room hroommem h hhmem
        have hph : findPlayer s h = some ph0 := findPlayerOfMem s ph0 h hn1 hph0m hph0id
        rw [leave_handoff_reduce s pid rid room h t hr hh hrem]
        exact WF_leave_host s pid rid player ph0 room h t hWF hp hr hridp hh hrem hph
      · have hhb : (room.hostId == pid) = false := by simp [hh]
        simp only [handleLeaveRoom, hr, hrem, hhb, Bool.false_eq_true, if_false]
        exact WF_leave_nonhost s pid rid player room h t hWF hp hr hrem hh hnomem

end Bingo

namespace Bingo

theorem mem_of_mem_mapInsert (l : List Nat) (x q : Nat) (h : q ∈ mapInsert l x) :
    q ∈ l ∨ q = x := by
  unfold mapInsert at h
  by_cases hx : x ∈ l
  · rw [if_pos hx] at h
    exact Or.inl h
  · rw [if_neg hx] at h
    rcases List.mem_append.mp h with h1 | h2
    · exact Or.inl h1
    · exact Or.inr (List.mem_singleton.mp h2)

theorem mem_mapInsert_of_mem (l : List Nat) (x q : Nat) (h : q ∈ l) :
    q ∈ mapInsert l x := by
  unfold mapInsert
  by_cases hx : x ∈ l
  · rwa [if_pos hx]
  · rw [if_neg hx]
    exact List.mem_append.mpr (Or.inl h)

/-- Leaving a room (that exists) clears the leaver's `roomId` and `isHost`. -/
theorem findPlayer_leave_self (s : ServerState) (pid old : Nat) (roomOld : Room)
    (hrold : findRoom s old = some roomOld) :
    findPlayer (handleLeaveRoom s pid old).1 pid
      = (findPlayer s pid).map (fun p => { p with roomId := none, isHost := false }) := by
  cases hrem : roomOld.players.filter (fun q => q != pid) with
  | nil =>
    simp only [handleLeaveRoom, hrold, hrem]
    rw [findPlayer_removeRoom,
      findPlayer_updatePlayer_self s pid
        (fun p => { p with roomId := none, isHost := false }) (fun p => rfl)]
  | cons h t =>
    have hne : h ≠ pid := by
      have hmem : h ∈ roomOld.players.filter (fun x => x != pid) :=
        hrem ▸ List.mem_cons_self h t
      exact bne_iff_ne.mp (List.mem_filter.mp hmem).2
    cases hh : roomOld.hostId == pid with
    | true =>
      rw [leave_handoff_reduce s pid old roomOld h t hrold (beq_iff_eq.mp hh) hrem]
      unfold leaveHostState
      rw [findPlayer_updatePlayer_other _ h pid
          (fun p => { p with isHost := true }) (fun p => rfl) (Ne.symm hne),
        findPlayer_updateRoom,
        findPlayer_updatePlayer_self s pid
          (fun p => { p with roomId := none, isHost := false }) (fun p => rfl)]
    | false =>
      simp only [handleLeaveRoom, hrold, hrem, hh, Bool.false_eq_true, if_false]
      rw [findPlayer_updateRoom,
        findPlayer_updatePlayer_self s pid
          (fun p => { p with roomId := none, isHost := false }) (fun p => rfl)]

/-- C2 machinery: well-formedness survives adding a room-less player to an
existing room (the insertion step of `handleJoinRoom`). -/
theorem WF_join_insert (s : ServerState) (pid rid : Nat) (player : Player)
    (room : Room) (hWF : WF s) (hp : findPlayer s pid = some player)
    (hr : findRoom s rid = some room) (hnone : player.roomId = none) :
    WF (updatePlayer (updateRoom s rid
        (fun r => { r with players := mapInsert r.players pid })) pid
      (fun p => { p with roomId := some rid, isHost := false })) := by
  obtain ⟨hn1, hn2, h3, h4, h5, h6, h7, h8, h9, h10⟩ := id hWF
  obtain ⟨hpmem, hpid⟩ := findPlayer_mem s pid player hp
  obtain ⟨hroommem, hroomid⟩ := findRoom_mem s rid room hr
  have huniqP : ∀ p ∈ s.players, p.id = pid → p = player := fun p hm he =>
    listNodupMapEq Player.id hn1 hm hpmem (he.trans hpid.symm)
  have hruniq : ∀ rold ∈ s.rooms, rold.id = rid → rold = room := fun rold hm he =>
    listNodupMapEq Room.id hn2 hm hroommem (he.trans hroomid.symm)
  have hnomem : ∀ r2 ∈ s.rooms, pid ∉ r2.players := by
    intro r2 hm hmem
    have := h5 r2 hm pid hmem player hpmem hpid
    rw [hnone] at this
    cases this
  have hgmem : ∀ p' ∈ (updatePlayer (updateRoom s rid
      (fun r => { r with players := mapInsert r.players pid })) pid
      (fun p => { p with roomId := some rid, isHost := false })).players,
      ∃ p ∈ s.players,
        (if p.id == pid then { p with roomId := some rid, isHost := false } else p) = p' :=
    fun p' hm => List.mem_map.mp hm
  have hgin : ∀ p ∈ s.players,
      (if p.id == pid then { p with roomId := some rid, isHost := false } else p)
        ∈ (updatePlayer (updateRoom s rid
            (fun r => { r with players := mapInsert r.players pid })) pid
            (fun p => { p with roomId := some rid, isHost := false })).players :=
    fun p hm => List.mem_map_of_mem _ hm
  have hrmem : ∀ r' ∈ (updatePlayer (updateRoom s rid
      (fun r => { r with players := mapInsert r.players pid })) pid
      (fun p => { p with roomId := some rid, isHost := false })).rooms,
      ∃ rold ∈ s.rooms,
        (if rold.id == rid then { rold with players := mapInsert rold.players pid }
         else rold) = r' :=
    fun r' hm => List.mem_map.mp hm
  have hrin : ∀ rold ∈ s.rooms,
      (if rold.id == rid then { rold with players := mapInsert rold.players pid }
        else rold)
        ∈ (updatePlayer (updateRoom s rid
            (fun r => { r with players := mapInsert r.players pid })) pid
            (fun p => { p with roomId := some rid, isHost := false })).rooms :=
    fun rold hm => List.mem_map_of_mem _ hm
  have hins : mapInsert room.players pid = room.players ++ [pid] := by
    unfold mapInsert
    rw [if_neg (hnomem room hroommem)]
  unfold WF
  refine ⟨?_, ?_, ?_, ?_, ?_, ?_, ?_, ?_, ?_, ?_⟩
  · rw [pids_updatePlayer (updateRoom s rid
      (fun r => { r with players := mapInsert r.players pid })) pid
      (fun p => { p with roomId := some rid, isHost := false }) (fun p => rfl)]
    exact hn1
  · show (((updateRoom s rid
      (fun r => { r with players := mapInsert r.players pid })).rooms).map Room.id).Nodup
    rw [rids_updateRoom s rid
      (fun r => { r with players := mapInsert r.players pid }) (fun r => rfl)]
    exact hn2
  · intro r' hr'
    obtain ⟨rold, hm, hre⟩ := hrmem r' hr'
    by_cases hc : rold.id = rid
    · have hroe : rold = room := hruniq rold hm hc
      subst hroe
      rw [if_pos (beq_iff_eq.mpr hc)] at hre
      rw [← hre]
      show (mapInsert rold.players pid).Nodup
      rw [show mapInsert rold.players pid = rold.players ++ [pid] from hins]
      refine List.Nodup.append (h3 rold hm) (List.nodup_singleton pid) ?_
      intro a ha hb
      rw [List.mem_singleton.mp hb] at ha
      exact hnomem rold hm ha
    · rw [if_neg (by simp [hc])] at hre
      rw [← hre]
      exact h3 rold hm
  · intro r' hr' q hq
    obtain ⟨rold, hm, hre⟩ := hrmem r' hr'
    have hbase : ∃ p ∈ s.players, p.id = q := by
      by_cases hc : rold.id = rid
      · rw [if_pos (beq_iff_eq.mpr hc)] at hre
        rw [← hre] at hq
        rcases mem_of_mem_mapInsert rold.players pid q hq with hq1 | hq2
        · exact h4 rold hm q hq1
        · exact ⟨player, hpmem, by rw [hpid, hq2]⟩
      · rw [if_neg (by simp [hc])] at hre
        rw [← hre] at hq
        exact h4 rold hm q hq
    obtain ⟨p, hpm, hpe⟩ := hbase
    refine ⟨(if p.id == pid then { p with roomId := some rid, isHost := false } else p),
      hgin p hpm, ?_⟩
    by_cases hcp : p.id = pid
    · rw [if_pos (beq_iff_eq.mpr hcp)]
      exact hpe
    · rw [if_neg (by simp [hcp])]
      exact hpe
  · intro r' hr' q hq p' hp' hpe'
    obtain ⟨rold, hm, hre⟩ := hrmem r' hr'
    obtain ⟨p, hpm, hpe⟩ := hgmem p' hp'
    by_cases hc : rold.id = rid
    · have hroe : rold = room := hruniq rold hm hc
      rw [if_pos (beq_iff_eq.mpr hc)] at hre
      rw [← hre] at hq
      by_cases hcp : p.id = pid
      · rw [if_pos (beq_iff_eq.mpr hcp)] at hpe
        rw [← hpe]
        show some rid = some r'.id
        rw [← hre]
        show some rid = some rold.id
        rw [hc]
      · rw [if_neg (by simp [hcp])] at hpe
        subst hpe
        have hqne : q ≠ pid := by
          intro he
          exact hcp (by rw [hpe', he])
        rcases mem_of_mem_mapInsert rold.players pid q hq with hq1 | hq2
        · have := h5 rold hm q hq1 p hpm hpe'
          rw [this, ← hre]
        · exact absurd hq2 hqne
    · rw [if_neg (by simp [hc])] at hre
      rw [← hre] at hq
      by_cases hcp : p.id = pid
      · exfalso
        have hidq : p'.id = p.id := by
          rw [← hpe, if_pos (beq_iff_eq.mpr hcp)]
        have hq2 : q = pid := by rw [← hpe', hidq, hcp]
        exact hnomem rold hm (hq2 ▸ hq)
      · rw [if_neg (by simp [hcp])] at hpe
        subst hpe
        have := h5 rold hm q hq p hpm hpe'
        rw [this, ← hre]
  · intro p' hp' rid2 hrid2
    obtain ⟨p, hpm, hpe⟩ := hgmem p' hp'
    by_cases hcp : p.id = pid
    · have hpp : p = player := huniqP p hpm hcp
      rw [if_pos (beq_iff_eq.mpr hcp)] at hpe
      have hprid : p'.roomId = some rid := by rw [← hpe]
      have hpidq : p'.id = pid := by rw [← hpe]; show p.id = pid; exact hcp
      rw [hprid] at hrid2
      have he2 : rid2 = rid := (Option.some.inj hrid2).symm
      refine ⟨(if room.id == rid then { room with players := mapInsert room.players pid }
          else room), hrin room hroommem, ?_, ?_⟩
      · rw [if_pos (beq_iff_eq.mpr hroomid)]
        show room.id = rid2
        rw [hroomid, he2]
      · rw [if_pos (beq_iff_eq.mpr hroomid)]
        show p'.id ∈ mapInsert room.players pid
        rw [hpidq]
        exact mem_mapInsert_self room.players pid
    · rw [if_neg (by simp [hcp])] at hpe
      subst hpe
      obtain ⟨r2, hr2m, hr2id, hr2mem⟩ := h6 p hpm rid2 hrid2
      refine ⟨(if r2.id == rid then { r2 with players := mapInsert r2.players pid }
          else r2), hrin r2 hr2m, ?_, ?_⟩
      · by_cases hc2 : r2.id = rid
        · rw [if_pos (beq_iff_eq.mpr hc2)]
          exact hr2id
        · rw [if_neg (by simp [hc2])]
          exact hr2id
      · by_cases hc2 : r2.id = rid
        · rw [if_pos (beq_iff_eq.mpr hc2)]
          exact mem_mapInsert_of_mem r2.players pid p.id hr2mem
        · rw [if_neg (by simp [hc2])]
          exact hr2mem
  · intro r' hr' hne
    obtain ⟨rold, hm, hre⟩ := hrmem r' hr'
    by_cases hc : rold.id = rid
    · have hroe : rold = room := hruniq rold hm hc
      subst hroe
      rw [if_pos (beq_iff_eq.mpr hc)] at hre
      rw [← hre]
      show rold.hostId ∈ mapInsert rold.players pid
      exact mem_mapInsert_of_mem rold.players pid rold.hostId
        (h7 rold hm (h10 rold hm))
    · rw [if_neg (by simp [hc])] at hre
      rw [← hre]
      rw [← hre] at hne
      exact h7 rold hm hne
  · intro p' hp' hflag
    obtain ⟨p, hpm, hpe⟩ := hgmem p' hp'
    by_cases hcp : p.id = pid
    · exfalso
      rw [if_pos (beq_iff_eq.mpr hcp)] at hpe
      have : p'.isHost = false := by rw [← hpe]
      rw [this] at hflag
      cases hflag
    · rw [if_neg (by simp [hcp])] at hpe
      subst hpe
      obtain ⟨r2, hr2m, hr2rid, hr2host⟩ := h8 p hpm hflag
      refine ⟨(if r2.id == rid then { r2 with players := mapInsert r2.players pid }
          else r2), hrin r2 hr2m, ?_, ?_⟩
      · by_cases hc2 : r2.id = rid
        · rw [if_pos (beq_iff_eq.mpr hc2)]
          exact hr2rid
        · rw [if_neg (by simp [hc2])]
          exact hr2rid
      · by_cases hc2 : r2.id = rid
        · rw [if_pos (beq_iff_eq.mpr hc2)]
          exact hr2host
        · rw [if_neg (by simp [hc2])]
          exact hr2host
  · intro r' hr' p' hp' hrid2 hhost2
    obtain ⟨rold, hm, hre⟩ := hrmem r' hr'
    obtain ⟨p, hpm, hpe⟩ := hgmem p' hp'
    by_cases hcp : p.id = pid
    · exfalso
      have hpp : p = player := huniqP p hpm hcp
      rw [if_pos (beq_iff_eq.mpr hcp)] at hpe
      have hpidq : p'.id = pid := by rw [← hpe]; show p.id = pid; exact hcp
      have hprid : p'.roomId = some rid := by rw [← hpe]
      rw [hprid] at hrid2
      by_cases hc : rold.id = rid
      · have hroe : rold = room := hruniq rold hm hc
        rw [if_pos (beq_iff_eq.mpr hc)] at hre
        have hh2 : room.hostId = pid := by
          have : r'.hostId = room.hostId := by rw [← hre, hroe]
          rw [← this, hhost2, hpidq]
        have hmemh : pid ∈ room.players := by
          rw [← hh2]
          exact h7 room hroommem (h10 room hroommem)
        exact hnomem room hroommem hmemh
      · rw [if_neg (by simp [hc])] at hre
        have : r'.id = rold.id := by rw [← hre]
        rw [this] at hrid2
        exact hc (Option.some.inj hrid2).symm
    · rw [if_neg (by simp [hcp])] at hpe
      subst hpe
      by_cases hc : rold.id = rid
      · have hroe : rold = room := hruniq rold hm hc
        subst hroe
        rw [if_pos (beq_iff_eq.mpr hc)] at hre
        have hid2 : r'.id = rold.id := by rw [← hre]
        have hhost3 : rold.hostId = p.id := by
          have : r'.hostId = rold.hostId := by rw [← hre]
          rw [← this, hhost2]
        rw [hid2] at hrid2
        exact h9 rold hm p hpm hrid2 hhost3
      · rw [if_neg (by simp [hc])] at hre
        subst hre
        exact h9 rold hm p hpm hrid2 hhost2
  · intro r' hr'
    obtain ⟨rold, hm, hre⟩ := hrmem r' hr'
    by_cases hc : rold.id = rid
    · rw [if_pos (beq_iff_eq.mpr hc)] at hre
      rw [← hre]
      show mapInsert rold.players pid ≠ []
      exact List.ne_nil_of_mem (mem_mapInsert_self rold.players pid)
    · rw [if_neg (by simp [hc])] at hre
      rw [← hre]
      exact h10 rold hm

end Bingo

namespace Bingo

/-- C2 machinery: `handleJoinRoom` preserves well-formedness except when the
caller is the target room's current host rejoining its own room (which would
clear the host's flag). -/
theorem WF_joinRoom (s : ServerState) (pid rid : Nat) (player : Player)
    (hWF : WF s) (hp : findPlayer s pid = some player)
    (hcond : ∀ room : Room, findRoom s rid = some room →
      player.roomId = some rid → room.hostId ≠ pid) :
    WF (handleJoinRoom s pid rid).1 := by
  obtain ⟨hn1, hn2, h3, h4, h5, h6, h7, h8, h9, h10⟩ := id hWF
  obtain ⟨hpmem, hpid⟩ := findPlayer_mem s pid player hp
  cases hr : findRoom s rid with
  | none =>
    simp only [handleJoinRoom, hp, hr]
    exact hWF
  | some room =>
    obtain ⟨hroommem, hroomid⟩ := findRoom_mem s rid room hr
    have hruniq : ∀ rold ∈ s.rooms, rold.id = rid → rold = room := fun rold hm he =>
      listNodupMapEq Room.id hn2 hm hroommem (he.trans hroomid.symm)
    have huniqP : ∀ p ∈ s.players, p.id = pid → p = player := fun p hm he =>
      listNodupMapEq Player.id hn1 hm hpmem (he.trans hpid.symm)
    by_cases hcap : room.players.length ≥ room.maxPlayers
    · simp only [handleJoinRoom, hp, hr, if_pos hcap]
      exact hWF
    · cases hrid : player.roomId with
      | none =>
        simp only [handleJoinRoom, hp, hr, if_neg hcap, hrid]
        exact WF_join_insert s pid rid player room hWF hp hr hrid
      | some old =>
        by_cases he : old = rid
        · -- rejoining the current room: the state is unchanged
          have hridp : player.roomId = some rid := by rw [hrid, he]
          have hnh : room.hostId ≠ pid := hcond room hr hridp
          have hneb : (old != rid) = false := by
            rw [he]
            simp
          simp only [handleJoinRoom, hp, hr, if_neg hcap, hrid, hneb,
            Bool.false_eq_true, if_false]
          have hpidmem : pid ∈ room.players := by
            obtain ⟨r2, hr2m, hr2id, hr2mem⟩ := h6 player hpmem rid hridp
            have hre : r2 = room := hruniq r2 hr2m hr2id
            rw [hre] at hr2mem
            rw [hpid] at hr2mem
            exact hr2mem
          have hish : player.isHost = false := by
            cases hcase2 : player.isHost
            · rfl
            · exfalso
              obtain ⟨r2, hr2m, hr2id2, hr2host⟩ := h8 player hpmem hcase2
              have hr2idrid : r2.id = rid := by
                rw [hridp] at hr2id2
                exact (Option.some.inj hr2id2).symm
              have hre : r2 = room := hruniq r2 hr2m hr2idrid
              rw [hre] at hr2host
              rw [hpid] at hr2host
              exact hnh hr2host
          have hrooms : updateRoom s rid
              (fun r => { r with players := mapInsert r.players pid }) = s := by
            unfold updateRoom
            have hmapid : s.rooms.map (fun r => if r.id == rid
                then { r with players := mapInsert r.players pid } else r) = s.rooms := by
              refine listMapId _ s.rooms (fun r hm => ?_)
              by_cases hc : r.id = rid
              · have hre : r = room := hruniq r hm hc
                rw [if_pos (beq_iff_eq.mpr hc), hre]
                rw [show mapInsert room.players pid = room.players from by
                  unfold mapInsert
                  rw [if_pos hpidmem]]
              · rw [if_neg (by simp [hc])]
            rw [hmapid]
          have hfix : ∀ pp : Player, pp.roomId = some rid → pp.isHost = false →
              ({ pp with roomId := some rid, isHost := false } : Player) = pp := by
            intro pp r1 r2
            cases pp
            simp only at r1 r2
            rw [← r1, ← r2]
          have hstate : updatePlayer s pid
              (fun p => { p with roomId := some rid, isHost := false }) = s := by
            unfold updatePlayer
            have hmapid : s.players.map (fun p => if p.id == pid
                then { p with roomId := some rid, isHost := false } else p)
                = s.players := by
              refine listMapId _ s.players (fun p hm => ?_)
              by_cases hc : p.id = pid
              · have hpp : p = player := huniqP p hm hc
                rw [if_pos (beq_iff_eq.mpr hc), hpp]
                exact hfix player hridp hish
              · rw [if_neg (by simp [hc])]
            rw [hmapid]
          rw [hrooms, hstate]
          exact hWF
        · -- joining a different room: leave the old one, then insert
          have hneb : (old != rid) = true := bne_iff_ne.mpr he
          have hrold : ∃ roomOld : Room, findRoom s old = some roomOld := by
            obtain ⟨r2, hr2m, hr2id, -⟩ := h6 player hpmem old hrid
            exact ⟨r2, findRoomOfMem s r2 old hn2 hr2m hr2id⟩
          obtain ⟨roomOld, hroldf⟩ := hrold
          have hWF1 : WF (handleLeaveRoom s pid old).1 :=
            WF_leaveRoom s pid old player hWF hp (Or.inl hrid)
          have hp1 : findPlayer (handleLeaveRoom s pid old).1 pid
              = some { player with roomId := none, isHost := false } := by
            rw [findPlayer_leave_self s pid old roomOld hroldf, hp]
            rfl
          have hr1 : findRoom (handleLeaveRoom s pid old).1 rid = some room := by
            rw [findRoom_leave_other s pid old rid (fun hcc => he hcc.symm)]
            exact hr
          simp only [handleJoinRoom, hp, hr, if_neg hcap, hrid, hneb, if_true]
          exact WF_join_insert (handleLeaveRoom s pid old).1 pid rid
            { player with roomId := none, isHost := false } room hWF1 hp1 hr1 rfl

end Bingo

namespace Bingo

/-- The room record that `handleCreateRoom` constructs (same literal, named
for readability in the invariant proofs). -/
def createdRoom (freshId : Nat) (roomName : String) (pid : Nat)
    (gameType : String) (maxPlayers : Nat) : Room :=
  { id := freshId, name := roomName, hostId := pid, players := [pid],
    gameType := gameType, gameActive := false, calledNumbers := [],
    maxPlayers := maxPlayers }

/-- C2 machinery: updating non-structural player fields (socket flags)
preserves well-formedness. -/
theorem WF_updatePlayer_flags (s : ServerState) (pid : Nat) (f : Player → Player)
    (hid : ∀ p, (f p).id = p.id) (hroom : ∀ p, (f p).roomId = p.roomId)
    (hhost : ∀ p, (f p).isHost = p.isHost) (hWF : WF s) :
    WF (updatePlayer s pid f) := by
  obtain ⟨hn1, hn2, h3, h4, h5, h6, h7, h8, h9, h10⟩ := id hWF
  have hgid : ∀ p : Player, (if p.id == pid then f p else p).id = p.id := by
    intro p
    by_cases hc : p.id = pid <;> simp [hc, hid]
  have hgroom : ∀ p : Player, (if p.id == pid then f p else p).roomId = p.roomId := by
    intro p
    by_cases hc : p.id = pid <;> simp [hc, hroom]
  have hghost : ∀ p : Player, (if p.id == pid then f p else p).isHost = p.isHost := by
    intro p
    by_cases hc : p.id = pid <;> simp [hc, hhost]
  have hgmem : ∀ p' ∈ (updatePlayer s pid f).players,
      ∃ p ∈ s.players, (if p.id == pid then f p else p) = p' :=
    fun p' hm => List.mem_map.mp hm
  have hgin : ∀ p ∈ s.players,
      (if p.id == pid then f p else p) ∈ (updatePlayer s pid f).players :=
    fun p hm => List.mem_map_of_mem _ hm
  unfold WF
  refine ⟨?_, hn2, h3, ?_, ?_, ?_, h7, ?_, ?_, h10⟩
  · rw [pids_updatePlayer s pid f hid]
    exact hn1
  · intro r hr q hq
    obtain ⟨p, hm, he⟩ := h4 r hr q hq
    exact ⟨(if p.id == pid then f p else p), hgin p hm, (hgid p).trans he⟩
  · intro r hr q hq p' hp' hpe'
    obtain ⟨p, hm, hpe⟩ := hgmem p' hp'
    rw [← hpe, hgroom p]
    refine h5 r hr q hq p hm ?_
    rw [← hgid p, hpe, hpe']
  · intro p' hp' rid2 hrid2
    obtain ⟨p, hm, hpe⟩ := hgmem p' hp'
    rw [← hpe, hgroom p] at hrid2
    obtain ⟨r2, hr2m, hr2id, hr2mem⟩ := h6 p hm rid2 hrid2
    refine ⟨r2, hr2m, hr2id, ?_⟩
    rw [← hpe, hgid p]
    exact hr2mem
  · intro p' hp' hflag
    obtain ⟨p, hm, hpe⟩ := hgmem p' hp'
    rw [← hpe, hghost p] at hflag
    obtain ⟨r2, hr2m, hr2id, hr2host⟩ := h8 p hm hflag
    refine ⟨r2, hr2m, ?_, ?_⟩
    · rw [← hpe, hgroom p]
      exact hr2id
    · rw [← hpe, hgid p]
      exact hr2host
  · intro r hr p' hp' hrid2 hhost2
    obtain ⟨p, hm, hpe⟩ := hgmem p' hp'
    rw [← hpe, hgroom p] at hrid2
    rw [← hpe, hgid p] at hhost2
    rw [← hpe, hghost p]
    exact h9 r hr p hm hrid2 hhost2

/-- C2 machinery: `handleCreateRoom` preserves well-formedness when the
creator is in no room and the fresh room id is genuinely fresh. -/
theorem WF_createRoom (s : ServerState) (pid : Nat) (roomName gameType : String)
    (maxPlayers freshId : Nat) (player : Player)
    (hWF : WF s) (hp : findPlayer s pid = some player)
    (hnone : player.roomId = none)
    (hfresh : ∀ r ∈ s.rooms, r.id ≠ freshId) :
    WF (handleCreateRoom s pid roomName gameType maxPlayers freshId).1 := by
  obtain ⟨hn1, hn2, h3, h4, h5, h6, h7, h8, h9, h10⟩ := id hWF
  obtain ⟨hpmem, hpid⟩ := findPlayer_mem s pid player hp
  have hnomem : ∀ r2 ∈ s.rooms, pid ∉ r2.players := by
    intro r2 hm hmem
    have := h5 r2 hm pid hmem player hpmem hpid
    rw [hnone] at this
    cases this
  by_cases hname : roomName = "" ∨ gameType = ""
  · simp only [handleCreateRoom, hp, if_pos hname]
    exact hWF
  · simp only [handleCreateRoom, hp, if_neg hname]
    have hany : ((updatePlayer s pid
        (fun p => { p with roomId := some freshId, isHost := true })).rooms.any
        (fun r => r.id == freshId)) = false := by
      show (s.rooms.any (fun r => r.id == freshId)) = false
      refine List.any_eq_false.mpr ?_
      intro r hm
      simp [hfresh r hm]
    unfold setRoomEntry
    rw [hany]
    simp only [Bool.false_eq_true, if_false]
    have hgmem : ∀ p' ∈ (updatePlayer s pid
        (fun p => { p with roomId := some freshId, isHost := true })).players,
        ∃ p ∈ s.players,
          (if p.id == pid then { p with roomId := some freshId, isHost := true } else p)
            = p' :=
      fun p' hm => List.mem_map.mp hm
    have hgin : ∀ p ∈ s.players,
        (if p.id == pid then { p with roomId := some freshId, isHost := true } else p)
          ∈ (updatePlayer s pid
              (fun p => { p with roomId := some freshId, isHost := true })).players :=
      fun p hm => List.mem_map_of_mem _ hm
    unfold WF
    refine ⟨?_, ?_, ?_, ?_, ?_, ?_, ?_, ?_, ?_, ?_⟩
    · rw [pids_updatePlayer s pid
        (fun p => { p with roomId := some freshId, isHost := true }) (fun p => rfl)]
      exact hn1
    · show ((s.rooms ++
        [createdRoom freshId roomName pid gameType maxPlayers]).map Room.id).Nodup
      rw [List.map_append]
      refine List.Nodup.append hn2 (List.nodup_singleton _) ?_
      intro a ha hb
      obtain ⟨r, hm, hre⟩ := List.mem_map.mp ha
      have haf : a = freshId := by
        have := List.mem_singleton.mp hb
        simpa [createdRoom] using this
      exact hfresh r hm (by rw [hre, haf])
    · intro r' hr'
      rcases List.mem_append.mp hr' with hold | hnew
      · exact h3 r' hold
      · rw [List.mem_singleton.mp hnew]
        exact List.nodup_singleton pid
    · intro r' hr' q hq
      rcases List.mem_append.mp hr' with hold | hnew
      · obtain ⟨p, hm, he⟩ := h4 r' hold q hq
        refine ⟨(if p.id == pid then { p with roomId := some freshId, isHost := true }
            else p), hgin p hm, ?_⟩
        by_cases hc : p.id = pid
        · rw [if_pos (beq_iff_eq.mpr hc)]
          exact he
        · rw [if_neg (by simp [hc])]
          exact he
      · rw [List.mem_singleton.mp hnew] at hq
        have hq2 : q = pid := List.mem_singleton.mp hq
        refine ⟨(if player.id == pid then
            { player with roomId := some freshId, isHost := true } else player),
          hgin player hpmem, ?_⟩
        rw [if_pos (beq_iff_eq.mpr hpid)]
        show player.id = q
        rw [hpid, hq2]
    · intro r' hr' q hq p' hp' hpe'
      obtain ⟨p, hm, hpe⟩ := hgmem p' hp'
      rcases List.mem_append.mp hr' with hold | hnew
      · by_cases hc : p.id = pid
        · exfalso
          have hidq : p'.id = p.id := by
            rw [← hpe, if_pos (beq_iff_eq.mpr hc)]
          have hq2 : q = pid := by rw [← hpe', hidq, hc]
          exact hnomem r' hold (hq2 ▸ hq)
        · rw [if_neg (by simp [hc])] at hpe
          subst hpe
          exact h5 r' hold q hq p hm hpe'
      · rw [List.mem_singleton.mp hnew] at hq ⊢
        have hq2 : q = pid := List.mem_singleton.mp hq
        by_cases hc : p.id = pid
        · rw [if_pos (beq_iff_eq.mpr hc)] at hpe
          rw [← hpe]
        · exfalso
          rw [if_neg (by simp [hc])] at hpe
          subst hpe
          exact hc (by rw [hpe', hq2])
    · intro p' hp' rid2 hrid2
      obtain ⟨p, hm, hpe⟩ := hgmem p' hp'
      by_cases hc : p.id = pid
      · rw [if_pos (beq_iff_eq.mpr hc)] at hpe
        have hpr : p'.roomId = some freshId := by rw [← hpe]
        rw [hpr] at hrid2
        have he2 : rid2 = freshId := (Option.some.inj hrid2).symm
        refine ⟨createdRoom freshId roomName pid gameType maxPlayers, ?_, ?_, ?_⟩
        · exact List.mem_append.mpr (Or.inr (List.mem_singleton.mpr rfl))
        · show freshId = rid2
          rw [he2]
        · show p'.id ∈ [pid]
          have hip : p'.id = p.id := by rw [← hpe]
          rw [hip, hc]
          exact List.mem_singleton.mpr rfl
      · rw [if_neg (by simp [hc])] at hpe
        subst hpe
        obtain ⟨r2, hr2m, hr2id, hr2mem⟩ := h6 p hm rid2 hrid2
        exact ⟨r2, List.mem_append.mpr (Or.inl hr2m), hr2id, hr2mem⟩
    · intro r' hr' hne
      rcases List.mem_append.mp hr' with hold | hnew
      · exact h7 r' hold hne
      · rw [List.mem_singleton.mp hnew]
        show pid ∈ [pid]
        exact List.mem_singleton.mpr rfl
    · intro p' hp' hflag
      obtain ⟨p, hm, hpe⟩ := hgmem p' hp'
      by_cases hc : p.id = pid
      · rw [if_pos (beq_iff_eq.mpr hc)] at hpe
        refine ⟨createdRoom freshId roomName pid gameType maxPlayers, ?_, ?_, ?_⟩
        · exact List.mem_append.mpr (Or.inr (List.mem_singleton.mpr rfl))
        · rw [← hpe]
          rfl
        · show pid = p'.id
          have hip : p'.id = p.id := by rw [← hpe]
          rw [hip, hc]
      · rw [if_neg (by simp [hc])] at hpe
        subst hpe
        obtain ⟨r2, hr2m, hr2id, hr2host⟩ := h8 p hm hflag
        exact ⟨r2, List.mem_append.mpr (Or.inl hr2m), hr2id, hr2host⟩
    · intro r' hr' p' hp' hrid2 hhost2
      obtain ⟨p, hm, hpe⟩ := hgmem p' hp'
      rcases List.mem_append.mp hr' with hold | hnew
      · by_cases hc : p.id = pid
        · exfalso
          rw [if_pos (beq_iff_eq.mpr hc)] at hpe
          have hpr : p'.roomId = some freshId := by rw [← hpe]
          rw [hpr] at hrid2
          exact hfresh r' hold (Option.some.inj hrid2).symm
        · rw [if_neg (by simp [hc])] at hpe
          subst hpe
          exact h9 r' hold p hm hrid2 hhost2
      · by_cases hc : p.id = pid
        · rw [if_pos (beq_iff_eq.mpr hc)] at hpe
          rw [← hpe]
        · exfalso
          rw [if_neg (by simp [hc])] at hpe
          subst hpe
          have hid2 : r'.id = freshId := by
            rw [List.mem_singleton.mp hnew]
          rw [hid2] at hrid2
          obtain ⟨r2, hr2m, hr2id, -⟩ := h6 p hm freshId hrid2
          exact hfresh r2 hr2m hr2id
    · intro r' hr'
      rcases List.mem_append.mp hr' with hold | hnew
      · exact h10 r' hold
      · rw [List.mem_singleton.mp hnew]
        simp [createdRoom]

/-- C2 machinery: a socket disconnect preserves well-formedness
unconditionally (it flips flags and then runs the leave logic for the
player's own current room). -/
theorem WF_disconnect (s : ServerState) (pid : Nat) (hWF : WF s) :
    WF (handleDisconnect s pid).1 := by
  cases hp : findPlayer s pid with
  | none =>
    simp only [handleDisconnect, hp]
    exact hWF
  | some player =>
    have hWF1 : WF (updatePlayer s pid
        (fun p => { p with connected := false, wsOpen := false })) :=
      WF_updatePlayer_flags s pid _ (fun p => rfl) (fun p => rfl) (fun p => rfl) hWF
    cases hrid : player.roomId with
    | none =>
      simp only [handleDisconnect, hp, hrid]
      exact hWF1
    | some rid =>
      simp only [handleDisconnect, hp, hrid]
      refine WF_leaveRoom _ pid rid
        { player with connected := false, wsOpen := false } hWF1 ?_ ?_
      · rw [findPlayer_updatePlayer_self s pid
          (fun p => { p with connected := false, wsOpen := false }) (fun p => rfl), hp]
        rfl
      · exact Or.inl hrid

end Bingo

namespace Bingo

/-- C2, counterexample: the host invariant is not preserved by every
operation.  `stateJoined` (host 0 and member 1 in room 0) is well-formed and
satisfies the invariant, but `createRoom` issued by member 1 — which the code
accepts without removing 1 from room 0 — leaves room 0 with two members whose
`isHost` flag is true, so `HostOk` fails afterwards. -/
theorem c2_counterexample :
    WF stateJoined ∧ HostOk stateJoined ∧
    ¬ HostOk stateTwoHosts ∧
    isHostOf stateTwoHosts 0 = true ∧ isHostOf stateTwoHosts 1 = true ∧
    (findRoom stateTwoHosts 0).map Room.players = some [0, 1] := by decide

/-- C2 (amended): in every well-formed state each nonempty room has exactly
one member with `isHost = true`, namely the member whose id is the room's
`hostId` (`WF → HostOk`); and well-formedness is preserved by `createRoom`
when the creator is in no room and the generated id is fresh, by `joinRoom`
unless the target room's host rejoins its own room, by `leaveRoom` when the
message names the player's own room (or the player is roomless), and by
`disconnect` unconditionally.  (Preservation genuinely fails on the excluded
paths: see the counterexample.) -/
theorem c2_amended :
    (∀ s : ServerState, WF s → HostOk s) ∧
    (∀ (s : ServerState) (pid : Nat) (roomName gameType : String)
        (maxPlayers freshId : Nat) (player : Player),
        WF s → findPlayer s pid = some player → player.roomId = none →
        (∀ r ∈ s.rooms, r.id ≠ freshId) →
        WF (handleCreateRoom s pid roomName gameType maxPlayers freshId).1) ∧
    (∀ (s : ServerState) (pid rid : Nat) (player : Player),
        WF s → findPlayer s pid = some player →
        (∀ room : Room, findRoom s rid = some room →
          player.roomId = some rid → room.hostId ≠ pid) →
        WF (handleJoinRoom s pid rid).1) ∧
    (∀ (s : ServerState) (pid rid : Nat) (player : Player),
        WF s → findPlayer s pid = some player →
        (player.roomId = some rid ∨ player.roomId = none) →
        WF (handleLeaveRoom s pid rid).1) ∧
    (∀ (s : ServerState) (pid : Nat), WF s → WF (handleDisconnect s pid).1) :=
  ⟨WF_implies_HostOk,
   fun s pid rn gt mp fid player hWF hp hnone hfresh =>
     WF_createRoom s pid rn gt mp fid player hWF hp hnone hfresh,
   fun s pid rid player hWF hp hcond => WF_joinRoom s pid rid player hWF hp hcond,
   fun s pid rid player hWF hp hcase => WF_leaveRoom s pid rid player hWF hp hcase,
   fun s pid hWF => WF_disconnect s pid hWF⟩

/-- C2, witness: the five conjuncts of the amended invariant theorem applied
at concrete states, every hypothesis discharged by evaluation. -/
theorem c2_witness :
    HostOk stateJoined ∧
    WF (handleCreateRoom stateThree 2 "r2" "90ball" 50 7).1 ∧
    WF (handleJoinRoom stateRoom 1 0).1 ∧
    WF (handleLeaveRoom stateJoined 1 0).1 ∧
    WF (handleDisconnect stateJoined 0).1 :=
  ⟨c2_amended.1 stateJoined (by decide),
   c2_amended.2.1 stateThree 2 "r2" "90ball" 50 7
     { id := 2, name := "", phone := "", roomId := none, isHost := false,
       connected := true, wsOpen := true }
     (by decide) (by decide) (by decide) (by decide),
   c2_amended.2.2.1 stateRoom 1 0
     { id := 1, name := "", phone := "", roomId := none, isHost := false,
       connected := true, wsOpen := true }
     (by decide) (by decide)
     (fun room hr hrid => absurd hrid (by decide)),
   c2_amended.2.2.2.1 stateJoined 1 0
     { id := 1, name := "", phone := "", roomId := some 0, isHost := false,
       connected := true, wsOpen := true }
     (by decide) (by decide) (Or.inl (by decide)),
   c2_amended.2.2.2.2 stateJoined 0 (by decide)⟩

end Bingo
